import Mathlib

/-!
# Verification of the AgentLong answer-extraction and scoring engine

Shallow embedding of `src/eval/common/question_logic.py` (answer extraction)
and `src/eval/evaluate.py` (scoring) over `List Char` texts.

Modelling conventions:
* Python strings are `List Char`; `str.strip()`, `str.lower()`, `str.split` and
  the specific regular expressions used by the source are implemented directly
  with the scanning semantics of CPython's `re` module (leftmost match,
  non-overlapping `findall`, greedy character classes, word boundaries over
  `[A-Za-z0-9_]`).  The benchmark data is ASCII, so ASCII case folding,
  whitespace and word characters model the CPython behaviour on all inputs
  that occur.
* Python `float` is an IEEE-754 binary64 value.  `int(float(s))` for a decimal
  literal `s` is modelled exactly: the rational value of `s` is rounded to the
  nearest representable double (53-bit significand, ties to even) and then
  truncated toward zero.  Exponent overflow (values of magnitude at least
  2^1024, i.e. decimal literals of more than 308 digits) and the resulting
  `OverflowError` are outside the modelled range; every statement below stays
  far below it, where the model is exact.
* Python `float` scores (`0.0`, `0.5`, `1.0`, F1 values and their means) are
  modelled as exact rationals (`ℚ`).  Every per-sample score compared in a
  theorem below is exactly representable in binary64, and the aggregate facts
  proved (equality of two runs, a mean over an unchanged multiset) are
  invariant under the modelling.
* Iterations whose measure strictly decreases but is not structural are
  written with an explicit fuel argument initialised to more than the text
  length, so that every definition computes by kernel reduction; fuel
  sufficiency is proved where theorems need it.
-/

namespace AgentLong

/-! ## Python string primitives -/

/-- The whitespace characters stripped by Python's `str.strip()` (ASCII). -/
def pySpaceChar (c : Char) : Bool :=
  c == ' ' || c == '\t' || c == '\n' || c == '\r' || c == '\x0b' || c == '\x0c'

/-- Python `str.strip()`: drop leading and trailing whitespace. -/
def pyStrip (cs : List Char) : List Char :=
  ((cs.dropWhile pySpaceChar).reverse.dropWhile pySpaceChar).reverse

/-- Python `str.lower()` (ASCII case folding). -/
def pyLower (cs : List Char) : List Char :=
  cs.map Char.toLower

/-- Shorthand turning a string literal into the `List Char` texts used here. -/
def S (s : String) : List Char :=
  s.toList

/-! ## Answer-tag isolation (`_extract_answer_tag`, question_logic.py 22-28)

`re.findall(r"<answer>(.*?)</answer>", text, flags=re.DOTALL | re.IGNORECASE)`:
scan left to right; a match starts at the earliest occurrence of `<answer>`
(case-insensitively) that is followed by `</answer>`; the non-greedy group
captures everything up to the first following `</answer>`; scanning resumes
after the consumed close tag (non-overlapping matches).  `re.DOTALL` is
implicit in the `List Char` model (no line handling at all). -/

/-- The literal open tag, lower case. -/
def openTagL : List Char := ['<', 'a', 'n', 's', 'w', 'e', 'r', '>']

/-- The literal close tag, lower case. -/
def closeTagL : List Char := ['<', '/', 'a', 'n', 's', 'w', 'e', 'r', '>']

/-- Match the (lower-case) literal `tag` at the head of `cs`, case-insensitively;
return the remainder on success. -/
def matchTagAt : List Char → List Char → Option (List Char)
  | [], cs => some cs
  | _ :: _, [] => none
  | t :: ts, c :: cs => if c.toLower = t then matchTagAt ts cs else none

/-- Leftmost occurrence of `tag` in `cs` (case-insensitive): returns the text
before the occurrence and the text after it. -/
def findTag (tag : List Char) : List Char → Option (List Char × List Char)
  | [] =>
    match matchTagAt tag [] with
    | some rest => some ([], rest)
    | none => none
  | c :: cs =>
    match matchTagAt tag (c :: cs) with
    | some rest => some ([], rest)
    | none =>
      match findTag tag cs with
      | some (pre, rest) => some (c :: pre, rest)
      | none => none

/-- All captured groups of the answer-tag pattern, left to right
(fuel-indexed; each iteration consumes at least one character, so any fuel
above the text length is sufficient). -/
def scanAnswersF : Nat → List Char → List (List Char)
  | 0, _ => []
  | f + 1, cs =>
    match findTag openTagL cs with
    | none => []
    | some (_, afterOpen) =>
      match findTag closeTagL afterOpen with
      | none => []
      | some (content, afterClose) => content :: scanAnswersF f afterClose

/-- All captured groups of `re.findall(r"<answer>(.*?)</answer>", ·)`. -/
def scanAnswers (cs : List Char) : List (List Char) :=
  scanAnswersF (cs.length + 1) cs

/-- `_extract_answer_tag` (question_logic.py 22-28): `None` for empty text or
when no span matches, else the last captured group, stripped. -/
def _extract_answer_tag (text : List Char) : Option (List Char) :=
  if text.isEmpty then none
  else
    match (scanAnswers text).getLast? with
    | none => none
    | some m => some (pyStrip m)

/-! ## Numeric token scanning (`parse_number`, question_logic.py 31-47)

The pattern `-?\d[\d,]*(?:\.\d+)?` is deterministic under greedy matching:
an optional minus (kept only when a digit follows), one digit, a greedy run
of digits and commas, and an optional fraction (a dot followed by a greedy
nonempty digit run). -/

/-- Characters admitted by the `[\d,]` class. -/
def digComma (c : Char) : Bool :=
  c.isDigit || c == ','

/-- The optional `(?:\.\d+)?` suffix: returns the consumed fragment and rest. -/
def fracSpan (cs : List Char) : List Char × List Char :=
  match cs with
  | '.' :: rest =>
    if (rest.takeWhile Char.isDigit).isEmpty then ([], cs)
    else ('.' :: rest.takeWhile Char.isDigit, rest.dropWhile Char.isDigit)
  | _ => ([], cs)

/-- `\d[\d,]*(?:\.\d+)?` at the head of the text: token and rest. -/
def matchNumCore : List Char → Option (List Char × List Char)
  | [] => none
  | c :: cs =>
    if c.isDigit then
      some (c :: (cs.takeWhile digComma ++ (fracSpan (cs.dropWhile digComma)).1),
        (fracSpan (cs.dropWhile digComma)).2)
    else none

/-- `-?\d[\d,]*(?:\.\d+)?` at the head of the text. -/
def matchNumAt (cs : List Char) : Option (List Char × List Char) :=
  match cs with
  | [] => none
  | c :: rest =>
    if c = '-' then
      match matchNumCore rest with
      | some (t, r) => some ('-' :: t, r)
      | none => none
    else matchNumCore (c :: rest)

/-- `re.findall` for the numeric pattern: leftmost, non-overlapping
(fuel-indexed; every step consumes at least one character). -/
def numFindAllF : Nat → List Char → List (List Char)
  | 0, _ => []
  | _ + 1, [] => []
  | f + 1, c :: cs =>
    match matchNumAt (c :: cs) with
    | some (t, r) => t :: numFindAllF f r
    | none => numFindAllF f cs

/-- All numeric tokens of the inner span text, left to right. -/
def numFindAll (cs : List Char) : List (List Char) :=
  numFindAllF (cs.length + 1) cs

/-! ## Exact model of `int(float(clean))`

`clean` is a numeric token with its commas removed, hence of the shape
`-?\d+(\.\d+)?`.  CPython parses it to the exact decimal rational, rounds to
the nearest IEEE-754 binary64 (53-bit significand, round half to even) and
`int` truncates toward zero.  The model below implements that rounding
exactly for all magnitudes below 2^1024 (values this development uses);
values needing a subnormal or infinite double all truncate to the same
integers as the model (0, resp. out of modelled range). -/

/-- Round `n / d` to the nearest integer, ties to even (`d > 0`). -/
def rne (n d : Nat) : Nat :=
  let q := n / d
  let r := n % d
  if 2 * r < d then q
  else if d < 2 * r then q + 1
  else if q % 2 = 0 then q else q + 1

/-- Decide `n / d ≥ 2 ^ e` by cross multiplication (`e : ℤ`). -/
def qGePow2 (n d : Nat) (e : Int) : Bool :=
  if 0 ≤ e then decide (d * 2 ^ e.toNat ≤ n) else decide (d ≤ n * 2 ^ (-e).toNat)

/-- Floor of `log2`, fuel-indexed so that it computes by kernel reduction
(the fuel only needs to exceed the number of halvings). -/
def natLog2F : Nat → Nat → Nat
  | 0, _ => 0
  | f + 1, n => if 2 ≤ n then natLog2F f (n / 2) + 1 else 0

/-- Floor of `log2 n` (0 at 0). -/
def natLog2 (n : Nat) : Nat :=
  natLog2F n n

/-- The binary exponent `E` with `2^52 ≤ (n/d) / 2^E < 2^53` for `n, d > 0`. -/
def dblExp (n d : Nat) : Int :=
  let e1 : Int := (natLog2 n : Int) - (natLog2 d : Int) - 52
  if qGePow2 n d (e1 + 52) then e1 else e1 - 1

/-- The 53-bit significand candidate: `n / d` scaled by `2^(-E)` and rounded
to the nearest integer, ties to even. -/
def dblRoundM (n d : Nat) (E : Int) : Nat :=
  if 0 ≤ E then rne n (d * 2 ^ E.toNat) else rne (n * 2 ^ (-E).toNat) d

/-- Nearest binary64 to `n / d > 0`, as a pair `(m, E)` of value `m · 2^E`
with `2^52 ≤ m ≤ 2^53` (the boundary case renormalises). -/
def dblRound (n d : Nat) : Nat × Int :=
  if dblRoundM n d (dblExp n d) = 2 ^ 53 then (2 ^ 52, dblExp n d + 1)
  else (dblRoundM n d (dblExp n d), dblExp n d)

/-- Truncate `m · 2^E` toward zero (`m : ℕ`, so this is a floor). -/
def truncPow2 (m : Nat) (E : Int) : Nat :=
  if 0 ≤ E then m * 2 ^ E.toNat else m / 2 ^ (-E).toNat

/-- `int(float(n/d))` for a nonnegative exact decimal rational `n / d`. -/
def pyFloatTruncVal (n d : Nat) : Nat :=
  if n = 0 then 0 else truncPow2 (dblRound n d).1 (dblRound n d).2

/-- Numeric value of a digit string (most significant first). -/
def digitsVal (ds : List Char) : Nat :=
  ds.foldl (fun a c => 10 * a + (c.toNat - 48)) 0

/-- The digits-and-fraction part of a `float` literal after the optional
sign: `\d+(\.\d+)?` exactly. -/
def parseFloatCore (neg : Bool) (rest : List Char) : Option (Bool × List Char × List Char) :=
  if (rest.takeWhile Char.isDigit).isEmpty then none
  else
    match rest.dropWhile Char.isDigit with
    | [] => some (neg, rest.takeWhile Char.isDigit, [])
    | '.' :: fr =>
      if (fr.takeWhile Char.isDigit).isEmpty || !(fr.dropWhile Char.isDigit).isEmpty then none
      else some (neg, rest.takeWhile Char.isDigit, fr.takeWhile Char.isDigit)
    | _ => none

/-- Parse `-?\d+(\.\d+)?` into (negative?, integer digits, fraction digits).
Models `float(clean)` acceptance on exactly the strings the numeric regular
expressions can produce (comma-stripped tokens always have this shape). -/
def parseFloatLit (cs : List Char) : Option (Bool × List Char × List Char) :=
  match cs with
  | '-' :: r => parseFloatCore true r
  | _ => parseFloatCore false cs

/-- `int(float(cs))`, `none` when `float` would raise `ValueError`. -/
def pyIntFloat (cs : List Char) : Option Int :=
  match parseFloatLit cs with
  | none => none
  | some (neg, ds, fs) =>
    some (if neg then
        -((pyFloatTruncVal (digitsVal ds * 10 ^ fs.length + digitsVal fs) (10 ^ fs.length) : Int))
      else
        ((pyFloatTruncVal (digitsVal ds * 10 ^ fs.length + digitsVal fs) (10 ^ fs.length) : Int)))

/-- The conversion loop of `parse_number` (question_logic.py 41-47): first
successful `int(float(candidate.replace(",", "")))` over the given order. -/
def tryConvert : List (List Char) → Option Int
  | [] => none
  | t :: ts =>
    match pyIntFloat (t.filter (fun c => !(c == ','))) with
    | some v => some v
    | none => tryConvert ts

/-- The numeric rule applied to an isolated span (question_logic.py 37-47):
all tokens of `-?\d[\d,]*(?:\.\d+)?`, tried from the last (rightmost). -/
def parseNumberInner (inner : List Char) : Option Int :=
  let ms := numFindAll inner
  if ms.isEmpty then none else tryConvert ms.reverse

/-- `parse_number` (question_logic.py 31-47). -/
def parse_number (text : List Char) : Option Int :=
  if text.isEmpty then none
  else
    match _extract_answer_tag text with
    | none => none
    | some inner => parseNumberInner inner

/-! ## Boolean extraction (`parse_boolean`, question_logic.py 50-69) -/

/-- Python `\w` (ASCII): letters, digits, underscore. -/
def isWordChar (c : Char) : Bool :=
  c.isAlphanum || c == '_'

/-- `\b` before a keyword that starts with a word character: position 0 or a
non-word character just before. -/
def boundaryBefore : Option Char → Bool
  | none => true
  | some c => !isWordChar c

/-- The keyword `kw` (literal, matched exactly — the searched text is already
lower-cased) occurs at the head of `cs` with a word boundary on both sides. -/
def kwWordAt (kw : List Char) (prev : Option Char) (cs : List Char) : Bool :=
  boundaryBefore prev &&
    (match matchTagAt kw cs with
     | none => false
     | some rest =>
       match rest with
       | [] => true
       | c :: _ => !isWordChar c)

/-- `re.search(r"\b(kw₁|…|kwₙ)\b", text)` as a Boolean: some keyword occurs
somewhere with word boundaries.  `prev` is the character left of the current
position. -/
def searchKws (kws : List (List Char)) : Option Char → List Char → Bool
  | _, [] => false
  | prev, c :: cs =>
    kws.any (fun kw => kwWordAt kw prev (c :: cs)) || searchKws kws (some c) cs

/-- The negation alternatives of question_logic.py line 57. -/
def negKws : List (List Char) :=
  [S "no", S "false", S "not", S "doesn't", S "does not", S "none", S "neither"]

/-- The affirmation alternatives of question_logic.py line 60. -/
def posKws : List (List Char) :=
  [S "yes", S "true", S "contain", S "contains", S "appear", S "appears", S "does", S "both"]

/-- `-?\d[\d,]*` at the head of the text (the fraction-free pattern of the
boolean fallback, question_logic.py line 63). -/
def matchNumAtNF (cs : List Char) : Option (List Char) :=
  match cs with
  | [] => none
  | c :: rest =>
    if c = '-' then
      match rest with
      | [] => none
      | d :: tail => if d.isDigit then some ('-' :: d :: tail.takeWhile digComma) else none
    else if c.isDigit then some (c :: rest.takeWhile digComma)
    else none

/-- `re.search(r"-?\d[\d,]*", ·)`: the leftmost match. -/
def searchNumNF : List Char → Option (List Char)
  | [] => none
  | c :: cs =>
    match matchNumAtNF (c :: cs) with
    | some t => some t
    | none => searchNumNF cs

/-- `parse_boolean` (question_logic.py 50-69): negation keywords beat
affirmation keywords; otherwise the first `-?\d[\d,]*` token decides by
`value > 0`; otherwise `None`. -/
def parse_boolean (text : List Char) : Option Bool :=
  if text.isEmpty then none
  else
    match _extract_answer_tag text with
    | none => none
    | some inner =>
      let textLower := pyLower inner
      if searchKws negKws none textLower then some false
      else if searchKws posKws none textLower then some true
      else
        match searchNumNF inner with
        | some t =>
          match pyIntFloat (t.filter (fun c => !(c == ','))) with
          | some v => some (decide (0 < v))
          | none => none
        | none => none

/-! ## Pair-list and intersection-list extraction
(`parse_pair_list` / `parse_intersection_list`, question_logic.py 72-122) -/

/-- Python `str.split(sep)` for a one-character separator (keeps empties). -/
def splitOn (sep : Char) : List Char → List (List Char)
  | [] => [[]]
  | c :: cs =>
    match splitOn sep cs with
    | [] => [[]]
    | p :: ps => if c = sep then [] :: p :: ps else (c :: p) :: ps

/-- One replacement step target of `re.sub(r"(?i)\band\b", ",", ·)`: the word
`and` (case-insensitive) at the head with word boundaries; returns the rest. -/
def andWordAt (prev : Option Char) (cs : List Char) : Option (List Char) :=
  match cs with
  | a :: n :: d :: rest =>
    if boundaryBefore prev && a.toLower = 'a' && n.toLower = 'n' && d.toLower = 'd' &&
        (match rest with
         | [] => true
         | c :: _ => !isWordChar c) then
      some rest
    else none
  | _ => none

/-- `re.sub(r"(?i)\band\b", ",", ·)`: scan left to right, replacing each
non-overlapping whole-word `and` with a comma (fuel-indexed). -/
def subAndCommaF : Nat → Option Char → List Char → List Char
  | 0, _, cs => cs
  | _ + 1, _, [] => []
  | f + 1, prev, c :: cs =>
    match andWordAt prev (c :: cs) with
    | some rest => ',' :: subAndCommaF f (some 'd') rest
    | none => c :: subAndCommaF f (some c) cs

/-- `re.sub(r"(?i)\band\b", ",", ·)`. -/
def subAndComma (cs : List Char) : List Char :=
  subAndCommaF (cs.length + 1) none cs

/-- `re.sub(r"[\n;|]", ",", ·)`. -/
def subSepComma (cs : List Char) : List Char :=
  cs.map (fun c => if c == '\n' || c == ';' || c == '|' then ',' else c)

/-- `re.sub(r"^\d+\.?\s*", "", chunk)` (question_logic.py line 95): strip a
leading numbering prefix. -/
def stripNumPrefix (chunk : List Char) : List Char :=
  let ds := chunk.takeWhile Char.isDigit
  if ds.isEmpty then chunk
  else
    let r := chunk.dropWhile Char.isDigit
    let r2 := match r with
      | '.' :: t => t
      | _ => r
    r2.dropWhile pySpaceChar

/-! ### A model of `ast.literal_eval` on list literals

The source guards this call with `text.startswith("[") and text.endswith("]")`
and only uses a resulting `list`.  The model parses (possibly nested) list
literals whose items are quoted strings (without escape sequences), optionally
signed integers under Python 3's leading-zero rule (`01` is a syntax error,
`0` and `00` are legal), `True`, `False`, `None`, and nested lists; trailing
commas are accepted, as in Python.  Float literals (and the remaining literal
forms: tuples, dicts, sets, bytes, complex numbers, string escapes and
concatenation) are not modelled — their success path would require modelling
CPython's shortest-round-trip float repr for the subsequent `str(x)` — and
parse as failures here where the real `ast.literal_eval` can succeed.  No
theorem below depends on the literal branch beyond its syntactic bracket
guard, which the source checks before invoking `ast.literal_eval`: every
theorem hypothesis that excludes the branch does so by that guard alone. -/

/-- Values a prediction or ground-truth record can hold (the JSON fragment
the benchmark uses; Python `bool` is a subtype of `int`, kept separate here
and reconciled where the source relies on `True == 1`). -/
inductive PyVal where
  | pnone : PyVal
  | pbool (b : Bool) : PyVal
  | pint (n : Int) : PyVal
  | pstr (s : List Char) : PyVal
  | plist (l : List PyVal) : PyVal

/-- A quoted string literal at the head: returns (content, rest). -/
def litString (cs : List Char) : Option (List Char × List Char) :=
  match cs with
  | q :: rest =>
    if q = '\'' || q = '"' then
      let content := rest.takeWhile (fun c => !(c == q))
      match rest.dropWhile (fun c => !(c == q)) with
      | _ :: rest2 => some (content, rest2)
      | [] => none
    else none
  | [] => none

/-- A digit run at the head under Python 3's decimal-integer grammar:
either a nonzero leading digit or all zeros; a leading zero followed by a
nonzero digit somewhere in the run (for example `01`) is a `SyntaxError`. -/
def litDigits (cs : List Char) : Option (Nat × List Char) :=
  if (cs.takeWhile Char.isDigit).isEmpty then none
  else if cs.head? = some '0' ∧ ¬(cs.takeWhile Char.isDigit).all (fun c => c == '0') then none
  else some (digitsVal (cs.takeWhile Char.isDigit), cs.dropWhile Char.isDigit)

/-- An optionally signed integer literal at the head (the `-` is a unary
minus node `ast.literal_eval` evaluates, so whitespace may follow it). -/
def litInt (cs : List Char) : Option (PyVal × List Char) :=
  match cs with
  | '-' :: r =>
    match litDigits (r.dropWhile pySpaceChar) with
    | some (v, rest) => some (.pint (-(v : Int)), rest)
    | none => none
  | _ =>
    match litDigits cs with
    | some (v, rest) => some (.pint v, rest)
    | none => none

/-- `True`, `False` or `None` at the head (exact case, as in Python). -/
def litKw (cs : List Char) : Option (PyVal × List Char) :=
  if cs.take 4 = S "True" then some (.pbool true, cs.drop 4)
  else if cs.take 5 = S "False" then some (.pbool false, cs.drop 5)
  else if cs.take 4 = S "None" then some (.pnone, cs.drop 4)
  else none

mutual

/-- One literal item at the head: string, `True`/`False`/`None`, a nested
list, or an integer (fuel-indexed; the fuel bounds bracket nesting). -/
def litItemF : Nat → List Char → Option (PyVal × List Char)
  | 0, _ => none
  | f + 1, cs =>
    match litString cs with
    | some (s, rest) => some (.pstr s, rest)
    | none =>
      match litKw cs with
      | some r => some r
      | none =>
        match cs with
        | '[' :: rest =>
          match rest.dropWhile pySpaceChar with
          | ']' :: tail => some (.plist [], tail)
          | _ =>
            match litItemsF f rest with
            | some (vs, tail) => some (.plist vs, tail)
            | none => none
        | _ => litInt cs

/-- Comma-separated items until `]`, a trailing comma allowed as in Python
(fuel-indexed). -/
def litItemsF : Nat → List Char → Option (List PyVal × List Char)
  | 0, _ => none
  | f + 1, cs =>
    match litItemF f (cs.dropWhile pySpaceChar) with
    | none => none
    | some (v, rest) =>
      match rest.dropWhile pySpaceChar with
      | ']' :: tail => some ([v], tail)
      | ',' :: tail =>
        match tail.dropWhile pySpaceChar with
        | ']' :: tail2 => some ([v], tail2)
        | _ =>
          match litItemsF f tail with
          | some (vs, tail2) => some (v :: vs, tail2)
          | none => none
      | _ => none

end

/-- `ast.literal_eval` restricted to the modelled literal fragment: `some`
exactly when the whole text (up to surrounding whitespace) is one list
literal of that fragment.  A non-list literal yields `none` just as the
source's `isinstance(arr, list)` check falls through. -/
def pyLiteralList (cs : List Char) : Option (List PyVal) :=
  match litItemF (cs.length + 1) (cs.dropWhile pySpaceChar) with
  | some (.plist vs, rest) => if (rest.dropWhile pySpaceChar).isEmpty then some vs else none
  | _ => none

/-! ### Python `str()` of record values -/

/-- Decimal rendering of an integer (via `Nat.toDigits`, which computes). -/
def intDec (n : Int) : List Char :=
  if n < 0 then '-' :: Nat.toDigits 10 (-n).toNat else Nat.toDigits 10 n.toNat

mutual

/-- `repr` of a `PyVal` (strings quoted with single quotes; escape sequences
do not occur in benchmark names and are not modelled). -/
def pyStrR : PyVal → List Char
  | .pstr s => '\'' :: (s ++ ['\''])
  | .pint n => intDec n
  | .pbool true => S "True"
  | .pbool false => S "False"
  | .pnone => S "None"
  | .plist l => '[' :: pyStrRList l ++ [']']

/-- `repr` of list elements, comma-separated. -/
def pyStrRList : List PyVal → List Char
  | [] => []
  | [v] => pyStrR v
  | v :: vs => pyStrR v ++ (S ", " ++ pyStrRList vs)

end

/-- Python `str(v)`: like `repr` except that a top-level string is returned
verbatim. -/
def pyStr : PyVal → List Char
  | .pstr s => s
  | v => pyStrR v

/-- The textual-normalisation tokens of `parse_pair_list` (question_logic.py
90-97): `and`/separators to commas, split, numbering prefixes stripped,
nonempty fragments kept in order. -/
def pairTokens (t : List Char) : List (List Char) :=
  ((splitOn ',' (subSepComma (subAndComma t))).map
      (fun chunk => pyStrip (stripNumPrefix chunk))).filter
    (fun item => !item.isEmpty)

/-- The textual-normalisation tokens of `parse_intersection_list`
(question_logic.py 119-122): as `pairTokens` but without numbering-prefix
stripping. -/
def interTokens (t : List Char) : List (List Char) :=
  ((splitOn ',' (subSepComma (subAndComma t))).map pyStrip).filter
    (fun chunk => !chunk.isEmpty)

/-- The literal-list branch shared by `parse_pair_list` and
`parse_intersection_list`: cleaned nonempty `str(x).strip()` elements when the
stripped span parses as a list literal. -/
def literalCleaned (t : List Char) : Option (List (List Char)) :=
  if t.head? = some '[' ∧ t.getLast? = some ']' then
    match pyLiteralList t with
    | some arr => some ((arr.map (fun x => pyStrip (pyStr x))).filter (fun s => !s.isEmpty))
    | none => none
  else none

/-- The literal branch of `parse_pair_list`: a parsed list literal counts
only when it has at least two cleaned elements (question_logic.py 80-88). -/
def literalCleanedPair (t : List Char) : Option (List (List Char)) :=
  match literalCleaned t with
  | some cleaned => if 2 ≤ cleaned.length then some cleaned else none
  | none => none

/-- `parse_pair_list` (question_logic.py 72-98): literal-list branch needing
at least two cleaned elements, else textual normalisation; `None` when no
fragments remain. -/
def parse_pair_list (text : List Char) : Option (List (List Char)) :=
  if text.isEmpty then none
  else
    match _extract_answer_tag text with
    | none => none
    | some inner =>
      match literalCleanedPair (pyStrip inner) with
      | some r => some r
      | none =>
        if (pairTokens (pyStrip inner)).isEmpty then none
        else some (pairTokens (pyStrip inner))

/-- `parse_intersection_list` (question_logic.py 101-122): like the pair
parser but an empty result is returned as an empty list, no numbering
prefixes are stripped, and the literal branch accepts any length. -/
def parse_intersection_list (text : List Char) : List (List Char) :=
  if text.isEmpty then []
  else
    match _extract_answer_tag text with
    | none => []
    | some inner =>
      if (pyStrip inner).isEmpty then []
      else
        match literalCleaned (pyStrip inner) with
        | some cleaned => cleaned
        | none => interTokens (pyStrip inner)

/-! ## The scorer (`evaluate.py`)

`evaluate` is modelled from the point where the JSONL rows and prediction
records are in memory and the dataset-wide question type and path-derived
labels have been determined (`load_jsonl`, `infer_context_from_path` and
`require_single_question_type` are I/O and configuration collaborators
outside the scored core); the loops and counters below follow
evaluate.py 126-250 line by line.  Scores are exact rationals (see the file
header). -/

/-- Question-type labels (mapping.py 22-29). -/
def COUNT_FREQUENCY_TOOL : String := "Count Frequency(Tool)"

/-- mapping.py line 23. -/
def FIND_DUPLICATES_TOOL : String := "Find Duplicates(Tool)"

/-- mapping.py line 24. -/
def FIND_TARGET_OFFSETS_TOOL : String := "Find Target Offsets(Tool)"

/-- mapping.py line 25. -/
def COUNT_CORRECTNESS_ENV : String := "Count Correctness(Env)"

/-- mapping.py line 26. -/
def COUNT_FREQUENCY_ENV : String := "Count Frequency(Env)"

/-- mapping.py line 27. -/
def FIND_ROUND_LARGEST_VALUE_ENV : String := "Find Round with Largest Value(Env)"

/-- mapping.py line 28. -/
def WEIGHTED_SUMMATION_ENV : String := "Weighted Summation(Env)"

/-- mapping.py line 29. -/
def INTERSECTION : String := "Intersection"

/-- `-?\d+(?:\.\d+)?` at the head of the text (the pattern of `_to_number`,
evaluate.py line 33 — no thousands separators here). -/
def matchNumAtStrict (cs : List Char) : Option (List Char) :=
  match cs with
  | [] => none
  | c :: rest =>
    if c = '-' then
      match rest with
      | [] => none
      | d :: tail =>
        if d.isDigit then
          let g := tail.takeWhile Char.isDigit
          let r := tail.dropWhile Char.isDigit
          let (f, _) := fracSpan r
          some ('-' :: d :: (g ++ f))
        else none
    else if c.isDigit then
      let g := rest.takeWhile Char.isDigit
      let r := rest.dropWhile Char.isDigit
      let (f, _) := fracSpan r
      some (c :: (g ++ f))
    else none

/-- `re.search(r"-?\d+(?:\.\d+)?", ·)`: leftmost match. -/
def searchNumStrict : List Char → Option (List Char)
  | [] => none
  | c :: cs =>
    match matchNumAtStrict (c :: cs) with
    | some t => some t
    | none => searchNumStrict cs

/-- `_to_number` (evaluate.py 25-39).  A Python `bool` passes the
`isinstance(val, int)` test and later compares by `True == 1`, modelled by
returning its integer value. -/
def _to_number : PyVal → Option Int
  | .pnone => none
  | .pbool b => some (if b then 1 else 0)
  | .pint n => some n
  | v =>
    match searchNumStrict (pyStr v) with
    | none => none
    | some t => pyIntFloat t

/-- `_normalize_name` (evaluate.py 42-61): strip, lower-case, remove a fixed
punctuation set (plus underscore in the knowledge-free variant). -/
def _normalize_name (knowledge_label : String) (name : List Char) : List Char :=
  if name.isEmpty then []
  else
    let normalized := pyLower (pyStrip name)
    if knowledge_label = "knowledge_free" then
      normalized.filter (fun c =>
        !(c == ' ' || c == '-' || c == '_' || c == '\'' || c == '"' || c == '.'))
    else
      normalized.filter (fun c =>
        !(c == ' ' || c == '-' || c == '\'' || c == '"' || c == '.'))

/-- Python's `needle in hay` substring containment. -/
def containsSub (needle : List Char) : List Char → Bool
  | [] => needle.isEmpty
  | c :: cs => needle.isPrefixOf (c :: cs) || containsSub needle cs

/-- `_normalize_boolean` (evaluate.py 64-76): substring containment, the
affirmative set checked before the negative set. -/
def _normalize_boolean : PyVal → Option Bool
  | .pnone => none
  | .pbool b => some b
  | .pint n => some (decide (0 < n))
  | v =>
    let text := pyStrip (pyLower (pyStr v))
    if containsSub (S "yes") text || containsSub (S "true") text || containsSub (S "1") text then
      some true
    else if containsSub (S "no") text || containsSub (S "false") text ||
        containsSub (S "0") text then
      some false
    else none

/-- Python `str.strip(chars)` for the bracket set of evaluate.py line 85. -/
def stripBrackets (cs : List Char) : List Char :=
  let isBr := fun c : Char =>
    c == '[' || c == ']' || c == '(' || c == ')' || c == '\x7b' || c == '\x7d'
  ((cs.dropWhile isBr).reverse.dropWhile isBr).reverse

/-- `\s+and\s+` at the head of the text: a nonempty whitespace run, the word
`and` case-insensitively, a nonempty whitespace run; returns the rest. -/
def wsAndWs (cs : List Char) : Option (List Char) :=
  match cs with
  | c :: _ =>
    if pySpaceChar c then
      let r1 := cs.dropWhile pySpaceChar
      match r1 with
      | a :: n :: d :: rest =>
        if a.toLower = 'a' && n.toLower = 'n' && d.toLower = 'd' then
          match rest with
          | w :: _ => if pySpaceChar w then some (rest.dropWhile pySpaceChar) else none
          | [] => none
        else none
      | _ => none
    else none
  | [] => none

/-- `re.split(r"[,;]|\s+and\s+", ·, flags=re.IGNORECASE)` (evaluate.py
line 86), fuel-indexed; the accumulator holds the current part reversed. -/
def splitPairSepF : Nat → List Char → List Char → List (List Char)
  | 0, acc, _ => [acc.reverse]
  | _ + 1, acc, [] => [acc.reverse]
  | f + 1, acc, c :: cs =>
    if c == ',' || c == ';' then acc.reverse :: splitPairSepF f [] cs
    else
      match wsAndWs (c :: cs) with
      | some rest => acc.reverse :: splitPairSepF f [] rest
      | none => splitPairSepF f (c :: acc) cs

/-- `re.split(r"[,;]|\s+and\s+", ·, flags=re.IGNORECASE)`. -/
def splitPairSep (cs : List Char) : List (List Char) :=
  splitPairSepF (cs.length + 1) [] cs

/-- `_normalize_pair_list` (evaluate.py 79-89). -/
def _normalize_pair_list (knowledge_label : String) : PyVal → Option (List (List Char))
  | .pnone => none
  | .plist l =>
    some (l.filterMap (fun v =>
      match v with
      | .pstr s => some (_normalize_name knowledge_label s)
      | _ => none))
  | .pstr s =>
    let text := stripBrackets s
    let parts := splitPairSep text
    if 2 ≤ parts.length then
      some (parts.map (fun p => _normalize_name knowledge_label (pyStrip p)))
    else none
  | _ => none

/-- `_compare_pair_lists` (evaluate.py 92-101). -/
def _compare_pair_lists (pred gt : List (List Char)) : ℚ :=
  if pred.isEmpty || gt.isEmpty then 0
  else
    match pred, gt with
    | [p0, p1], [g0, g1] => if p0 = g0 ∧ p1 = g1 then 1 else 0
    | [p0], [g0, _] => if p0 = g0 then (1 : ℚ) / 2 else 0
    | _, _ => 0

/-- Python `str.split()` with no argument: split on whitespace runs,
dropping empty parts; the accumulator holds the current token reversed. -/
def pyWsSplitAux : List Char → List Char → List (List Char)
  | acc, [] => if acc.isEmpty then [] else [acc.reverse]
  | acc, c :: cs =>
    if pySpaceChar c then
      if acc.isEmpty then pyWsSplitAux [] cs else acc.reverse :: pyWsSplitAux [] cs
    else pyWsSplitAux (c :: acc) cs

/-- Python `str.split()` with no argument. -/
def pyWsSplit (cs : List Char) : List (List Char) :=
  pyWsSplitAux [] cs

/-- `_to_set` (evaluate.py 104-112): elements of a list value, or the
comma/whitespace tokens of a string value, stripped and nonempty. -/
def _to_set : PyVal → List (List Char)
  | .pnone => []
  | .plist l => (l.map (fun v => pyStrip (pyStr v))).filter (fun s => !s.isEmpty)
  | .pstr s =>
    let commas := s.map (fun c => if c == '\n' then ',' else c)
    (((splitOn ',' commas).map pyWsSplit).flatten.map pyStrip).filter (fun v => !v.isEmpty)
  | _ => []

/-- A dataset row as `evaluate` reads it: its `id` and `answer` fields
(the other fields are never consulted by the scorer). -/
structure RowRec where
  rid : PyVal
  answer : PyVal

/-- A prediction record as `evaluate` reads it; `pnone` doubles for an absent
key, exactly as Python's `dict.get` conflates the two. -/
structure PredRec where
  pid : PyVal
  sampleId : PyVal
  roundId : PyVal
  predAnswer : PyVal
  predIntersection : PyVal

/-- Python's `v is None` on a record value. -/
def isPNone : PyVal → Bool
  | .pnone => true
  | _ => false

/-- `_pred_key` (evaluate.py 115-123). -/
def _pred_key (p : PredRec) : Option (List Char) :=
  if !isPNone p.pid then some (pyStr p.pid)
  else if !isPNone p.sampleId && !isPNone p.roundId then
    some (pyStr p.sampleId ++ (S "_r" ++ pyStr p.roundId))
  else none

/-- The dict `data = {row["id"]: row for row in rows}` looked up at a string
key: the last row whose `id` equals the key (a Python `str` equals no `int`
or `bool`, so only string ids can match). -/
def dataLookup (rows : List RowRec) (k : List Char) : Option RowRec :=
  (rows.filter (fun r =>
    match r.rid with
    | .pstr s => s == k
    | _ => false)).getLast?

/-- The guard `if not key or key not in data: continue` (evaluate.py
143-144 and 175-176) together with the `data[key]` access: the matched row,
if any. -/
def matchedRow (rows : List RowRec) (p : PredRec) : Option RowRec :=
  match _pred_key p with
  | none => none
  | some k => if k.isEmpty then none else dataLookup rows k

/-- Per-sample set F1 (evaluate.py 151-159). -/
def sampleF1 (gtSet predSet : Finset (List Char)) : ℚ :=
  if gtSet = ∅ ∧ predSet = ∅ then 1
  else if gtSet = ∅ ∨ predSet = ∅ then 0
  else
    let inter : ℚ := (gtSet ∩ predSet).card
    let prec : ℚ := if predSet ≠ ∅ then inter / predSet.card else 0
    let recl : ℚ := if gtSet ≠ ∅ then inter / gtSet.card else 0
    if prec + recl ≠ 0 then 2 * prec * recl / (prec + recl) else 0

/-- Per-sample set F1 on record values: `set(_to_set(·))` on both sides, then
`sampleF1` (evaluate.py 146-159). -/
def sampleF1v (gtv predv : PyVal) : ℚ :=
  sampleF1 (_to_set gtv).toFinset (_to_set predv).toFinset

/-- One iteration of the verbose-intersection loop (evaluate.py 141-162),
over the state (matched count, per-sample F1 list). -/
def verboseStep (rows : List RowRec) (st : Nat × List ℚ) (p : PredRec) : Nat × List ℚ :=
  match matchedRow rows p with
  | none => st
  | some row =>
    let predVal := if isPNone p.predAnswer then p.predIntersection else p.predAnswer
    (st.1 + 1, st.2 ++ [sampleF1v row.answer predVal])

/-- The truthiness coercion `gt or ""` of evaluate.py line 228. -/
def pyTruthy : PyVal → Bool
  | .pnone => false
  | .pbool b => b
  | .pint n => n != 0
  | .pstr s => !s.isEmpty
  | .plist l => !l.isEmpty

/-- `str(v or "")` (evaluate.py lines 228-229). -/
def strOrEmpty (v : PyVal) : List Char :=
  if pyTruthy v then pyStr v else []

/-- State of the accuracy loop: matched, total, correct (evaluate.py
135-137); `correct` accumulates fractional pair scores. -/
structure AccSt where
  matched : Nat
  total : Nat
  correct : ℚ

/-- The per-branch total/correct update of the accuracy loop (evaluate.py
183-237): the matched sample either increments the denominator (adding its
score to the numerator), or — when its ground truth cannot be normalised —
leaves both untouched. -/
def accUpdate (qt knowledge_label history_label : String) (gt predVal : PyVal)
    (total : Nat) (correct : ℚ) : Nat × ℚ :=
  if qt = COUNT_FREQUENCY_TOOL ∨ qt = COUNT_CORRECTNESS_ENV ∨ qt = COUNT_FREQUENCY_ENV ∨
      qt = FIND_ROUND_LARGEST_VALUE_ENV ∨ qt = WEIGHTED_SUMMATION_ENV then
    match _to_number gt with
    | none => (total, correct)
    | some gtNum =>
      (total + 1, if _to_number predVal = some gtNum then correct + 1 else correct)
  else if qt = FIND_DUPLICATES_TOOL then
    match _normalize_boolean gt with
    | none => (total, correct)
    | some gtBool =>
      (total + 1, if _normalize_boolean predVal = some gtBool then correct + 1 else correct)
  else if qt = FIND_TARGET_OFFSETS_TOOL then
    match _normalize_pair_list knowledge_label gt with
    | none => (total, correct)
    | some gtList =>
      let score :=
        match _normalize_pair_list knowledge_label predVal with
        | some predList => _compare_pair_lists predList gtList
        | none => 0
      (total + 1, correct + score)
  else if qt = INTERSECTION ∧ history_label = "Concise-Response" then
    let gtNorm := _normalize_name knowledge_label (strOrEmpty gt)
    if gtNorm.isEmpty then (total, correct)
    else
      (total + 1,
        if _normalize_name knowledge_label (strOrEmpty predVal) = gtNorm then correct + 1
        else correct)
  else (total, correct)

/-- One iteration of the accuracy loop (evaluate.py 174-237): an unmatched
record leaves the state alone; a matched one counts `matched += 1` and then
applies the per-branch update to total and correct. -/
def accStep (qt knowledge_label history_label : String) (rows : List RowRec)
    (st : AccSt) (p : PredRec) : AccSt :=
  match matchedRow rows p with
  | none => st
  | some row =>
    ⟨st.matched + 1,
      (accUpdate qt knowledge_label history_label row.answer p.predAnswer st.total st.correct).1,
      (accUpdate qt knowledge_label history_label row.answer p.predAnswer st.total st.correct).2⟩

/-- The metric report `evaluate` returns (evaluate.py 164-172 and 240-250);
`correct`/`total` are absent from the F1 report. -/
structure EvalReport where
  question_type : String
  knowledge_type : String
  history_type : String
  metric : String
  score : ℚ
  matched : Nat
  skipped : Nat
  correct : Option ℚ
  total : Option Nat

/-- `evaluate` (evaluate.py 126-250), from loaded rows and predictions and
the dataset-wide labels. -/
def evaluate (question_type knowledge_label history_label : String)
    (rows : List RowRec) (preds : List PredRec) : EvalReport :=
  if question_type = INTERSECTION ∧ history_label = "Verbose-Response" then
    let st := preds.foldl (verboseStep rows) (0, [])
    let avg := if st.2.length ≠ 0 then st.2.sum / (st.2.length : ℚ) else 0
    { question_type := question_type
      knowledge_type := knowledge_label
      history_type := history_label
      metric := "f1"
      score := avg
      matched := st.1
      skipped := preds.length - st.1
      correct := none
      total := none }
  else
    let st := preds.foldl (accStep question_type knowledge_label history_label rows)
      ⟨0, 0, 0⟩
    let score := if 0 < st.total then st.correct / (st.total : ℚ) else 0
    { question_type := question_type
      knowledge_type := knowledge_label
      history_type := history_label
      metric := "accuracy"
      score := score
      matched := st.matched
      skipped := preds.length - st.matched
      correct := some st.correct
      total := some st.total }

/-! ## Predicates used by the theorems -/

/-- Texts whose characters cannot open an answer tag (no character
lower-casing to `<`; `<` itself is the only such character).  Fillers and
span contents satisfying this cannot create or destroy tag occurrences. -/
def noLt (cs : List Char) : Bool :=
  cs.all (fun c => !(c.toLower == '<'))

/-- The ten decimal digit characters. -/
def digitChars : List Char :=
  ['0', '1', '2', '3', '4', '5', '6', '7', '8', '9']

/-- Numeric value of a token, thousands separators removed — the value
`parse_number` is expected to recover. -/
def digitsValC (ds : List Char) : Nat :=
  digitsVal (ds.filter (fun c => !(c == ',')))

/-- The question types scored with the accuracy metric (the claims' integer,
boolean, ordered-pair and bare-string archetypes). -/
def accuracyArchetype (qt history_label : String) : Prop :=
  (qt = COUNT_FREQUENCY_TOOL ∨ qt = COUNT_CORRECTNESS_ENV ∨ qt = COUNT_FREQUENCY_ENV ∨
      qt = FIND_ROUND_LARGEST_VALUE_ENV ∨ qt = WEIGHTED_SUMMATION_ENV) ∨
    qt = FIND_DUPLICATES_TOOL ∨ qt = FIND_TARGET_OFFSETS_TOOL ∨
    (qt = INTERSECTION ∧ history_label = "Concise-Response")

/-- Ground truth that the matched branch of the accuracy loop cannot
normalise to its archetype's shape (the `continue` cases of evaluate.py
192-193, 204-205, 216-217, 230-231). -/
def accMalformed (qt knowledge_label history_label : String) (ans : PyVal) : Bool :=
  if qt = COUNT_FREQUENCY_TOOL ∨ qt = COUNT_CORRECTNESS_ENV ∨ qt = COUNT_FREQUENCY_ENV ∨
      qt = FIND_ROUND_LARGEST_VALUE_ENV ∨ qt = WEIGHTED_SUMMATION_ENV then
    (_to_number ans).isNone
  else if qt = FIND_DUPLICATES_TOOL then (_normalize_boolean ans).isNone
  else if qt = FIND_TARGET_OFFSETS_TOOL then (_normalize_pair_list knowledge_label ans).isNone
  else if qt = INTERSECTION ∧ history_label = "Concise-Response" then
    (_normalize_name knowledge_label (strOrEmpty ans)).isEmpty
  else false

/-- A prediction record that reaches the scoring body: its key resolves to a
dataset row. -/
def predMatched (rows : List RowRec) (p : PredRec) : Bool :=
  (matchedRow rows p).isSome

/-! ## Helper lemmas: characters and stripping -/

theorem dropWhile_eq_self_of_all {p : Char → Bool} {l : List Char}
    (h : ∀ c ∈ l, p c = false) : l.dropWhile p = l := by
  cases l with
  | nil => rfl
  | cons c cs => simp [List.dropWhile, h c (by simp)]

theorem pyStrip_of_all {l : List Char} (h : ∀ c ∈ l, pySpaceChar c = false) :
    pyStrip l = l := by
  unfold pyStrip
  rw [dropWhile_eq_self_of_all h, dropWhile_eq_self_of_all, List.reverse_reverse]
  intro c hc
  exact h c (by simpa using hc)

theorem noLt_append {a b : List Char} : noLt (a ++ b) = (noLt a && noLt b) := by
  simp [noLt, List.all_append]

theorem noLt_mem {l : List Char} (h : noLt l = true) :
    ∀ c ∈ l, (c.toLower == '<') = false := by
  intro c hc
  have := (List.all_eq_true.mp h) c hc
  simpa using this

theorem digit_isDigit : ∀ c ∈ digitChars, c.isDigit = true := by decide

theorem digit_noLt_char : ∀ c ∈ digitChars, (c.toLower == '<') = false := by decide

theorem digit_not_space : ∀ c ∈ digitChars, pySpaceChar c = false := by decide

theorem digit_ne_dash : ∀ c ∈ digitChars, ¬c = '-' := by decide

theorem digit_ne_comma : ∀ c ∈ digitChars, (c == ',') = false := by decide

theorem digit_digComma : ∀ c ∈ digitChars, digComma c = true := by decide

/-! ## Scanner lemmas (`_extract_answer_tag`) -/

theorem matchTagAt_length {tag cs rest : List Char}
    (h : matchTagAt tag cs = some rest) : cs.length = tag.length + rest.length := by
  induction tag generalizing cs with
  | nil =>
    simp [matchTagAt] at h
    simp [h]
  | cons t ts ih =>
    cases cs with
    | nil => simp [matchTagAt] at h
    | cons c cs' =>
      by_cases hc : c.toLower = t
      · simp [matchTagAt, hc] at h
        have := ih h
        simp [this]
        omega
      · simp [matchTagAt, hc] at h

theorem findTag_length {tag : List Char} :
    ∀ {cs pre rest : List Char}, findTag tag cs = some (pre, rest) →
      cs.length = pre.length + tag.length + rest.length := by
  intro cs
  induction cs with
  | nil =>
    intro pre rest h
    unfold findTag at h
    cases hm : matchTagAt tag [] with
    | none => rw [hm] at h; exact absurd h (by simp)
    | some r =>
      rw [hm] at h
      simp at h
      obtain ⟨h1, h2⟩ := h
      have hl := matchTagAt_length hm
      subst h1 h2
      simp at hl ⊢
      omega
  | cons c cs' ih =>
    intro pre rest h
    unfold findTag at h
    cases hm : matchTagAt tag (c :: cs') with
    | some r =>
      rw [hm] at h
      simp at h
      obtain ⟨h1, h2⟩ := h
      have hl := matchTagAt_length hm
      subst h1 h2
      simpa using hl
    | none =>
      rw [hm] at h
      cases hf : findTag tag cs' with
      | none => rw [hf] at h; exact absurd h (by simp)
      | some pr =>
        obtain ⟨p', r'⟩ := pr
        rw [hf] at h
        simp at h
        obtain ⟨h1, h2⟩ := h
        have := ih hf
        subst h2
        simp [← h1, this]
        omega

theorem matchTagAt_head_ne {ts : List Char} {c : Char} {cs : List Char}
    (hc : (c.toLower == '<') = false) :
    matchTagAt ('<' :: ts) (c :: cs) = none := by
  simp at hc
  simp [matchTagAt, hc]

theorem findTag_cons_ne {ts : List Char} {c : Char} {cs : List Char}
    (hc : (c.toLower == '<') = false) :
    findTag ('<' :: ts) (c :: cs) =
      (findTag ('<' :: ts) cs).map (fun pr => (c :: pr.1, pr.2)) := by
  have h1 : findTag ('<' :: ts) (c :: cs)
      = match findTag ('<' :: ts) cs with
        | some (pre, rest) => some (c :: pre, rest)
        | none => none := by
    conv_lhs => rw [findTag]
    rw [matchTagAt_head_ne hc]
  rw [h1]
  cases findTag ('<' :: ts) cs with
  | none => rfl
  | some pr => obtain ⟨a, b⟩ := pr; rfl

theorem findTag_append_noLt {ts p rest : List Char} (hp : noLt p = true) :
    findTag ('<' :: ts) (p ++ rest) =
      (findTag ('<' :: ts) rest).map (fun pr => (p ++ pr.1, pr.2)) := by
  induction p with
  | nil =>
    cases h : findTag ('<' :: ts) rest with
    | none => simp [h]
    | some pr => obtain ⟨a, b⟩ := pr; simp [h]
  | cons c p' ih =>
    have hc : (c.toLower == '<') = false := noLt_mem hp c (by simp)
    have hp' : noLt p' = true := by
      have := List.all_eq_true.mp hp
      exact List.all_eq_true.mpr fun x hx => this x (by simp [hx])
    show findTag ('<' :: ts) (c :: (p' ++ rest)) = _
    rw [findTag_cons_ne hc, ih hp']
    cases findTag ('<' :: ts) rest with
    | none => simp
    | some pr => obtain ⟨a, b⟩ := pr; simp

theorem findTag_noLt_none {ts p : List Char} (hp : noLt p = true) :
    findTag ('<' :: ts) p = none := by
  have h := @findTag_append_noLt ts p [] hp
  simp at h
  simpa [show findTag ('<' :: ts) [] = none from rfl] using h

theorem findTag_open_self (rest : List Char) :
    findTag openTagL (openTagL ++ rest) = some ([], rest) := rfl

theorem findTag_close_self (rest : List Char) :
    findTag closeTagL (closeTagL ++ rest) = some ([], rest) := rfl

theorem openTagL_head : openTagL = '<' :: ['a', 'n', 's', 'w', 'e', 'r', '>'] := rfl

theorem closeTagL_head : closeTagL = '<' :: ['/', 'a', 'n', 's', 'w', 'e', 'r', '>'] := rfl

theorem scanAnswersF_succ (f : Nat) (cs : List Char) :
    scanAnswersF (f + 1) cs =
      match findTag openTagL cs with
      | none => []
      | some (_, afterOpen) =>
        match findTag closeTagL afterOpen with
        | none => []
        | some (content, afterClose) => content :: scanAnswersF f afterClose := rfl

theorem scanAnswersF_congr :
    ∀ f1 f2 cs, cs.length < f1 → cs.length < f2 →
      scanAnswersF f1 cs = scanAnswersF f2 cs := by
  intro f1
  induction f1 with
  | zero => intro f2 cs h1; omega
  | succ a ih =>
    intro f2 cs h1 h2
    cases f2 with
    | zero => omega
    | succ b =>
      rw [scanAnswersF_succ a, scanAnswersF_succ b]
      cases ho : findTag openTagL cs with
      | none => rfl
      | some pr =>
        obtain ⟨pre, afterOpen⟩ := pr
        show (match findTag closeTagL afterOpen with
              | none => []
              | some (content, afterClose) => content :: scanAnswersF a afterClose)
            = (match findTag closeTagL afterOpen with
              | none => []
              | some (content, afterClose) => content :: scanAnswersF b afterClose)
        cases hc : findTag closeTagL afterOpen with
        | none => rfl
        | some pr2 =>
          obtain ⟨content, afterClose⟩ := pr2
          have l1 := findTag_length ho
          have l2 := findTag_length hc
          simp [openTagL] at l1
          simp [closeTagL] at l2
          exact congrArg (content :: ·) (ih b afterClose (by omega) (by omega))

theorem scanAnswers_block {p c rest : List Char} (hp : noLt p = true) (hc : noLt c = true) :
    scanAnswers (p ++ (openTagL ++ (c ++ (closeTagL ++ rest)))) = c :: scanAnswers rest := by
  unfold scanAnswers
  have hlen : (p ++ (openTagL ++ (c ++ (closeTagL ++ rest)))).length
      = p.length + 8 + c.length + 9 + rest.length := by
    simp [openTagL, closeTagL]
    omega
  rw [show (p ++ (openTagL ++ (c ++ (closeTagL ++ rest)))).length + 1
      = (p.length + 8 + c.length + 9 + rest.length) + 1 by rw [hlen]]
  rw [scanAnswersF_succ]
  rw [openTagL_head, findTag_append_noLt hp, ← openTagL_head, findTag_open_self]
  show (match findTag closeTagL (c ++ (closeTagL ++ rest)) with
        | none => []
        | some (content, afterClose) =>
          content :: scanAnswersF (p.length + 8 + c.length + 9 + rest.length) afterClose)
      = c :: scanAnswers rest
  rw [closeTagL_head, findTag_append_noLt hc, ← closeTagL_head, findTag_close_self]
  simp only [Option.map, List.append_nil]
  exact congrArg (c :: ·) (scanAnswersF_congr _ _ rest (by omega) (by omega))

theorem scanAnswers_noLt {p : List Char} (hp : noLt p = true) : scanAnswers p = [] := by
  unfold scanAnswers
  cases hl : p.length with
  | zero => simp only [scanAnswersF]; rw [openTagL_head, findTag_noLt_none hp]
  | succ n => simp only [scanAnswersF]; rw [openTagL_head, findTag_noLt_none hp]

theorem extract_wrap {c : List Char} (hc : noLt c = true) :
    _extract_answer_tag (openTagL ++ (c ++ closeTagL)) = some (pyStrip c) := by
  unfold _extract_answer_tag
  have hs : scanAnswers ([] ++ (openTagL ++ (c ++ (closeTagL ++ [])))) = c :: scanAnswers [] :=
    scanAnswers_block (by decide) hc
  simp at hs
  have hne : (openTagL ++ (c ++ closeTagL)).isEmpty = false := by
    simp [openTagL, List.isEmpty_iff]
  rw [hne, hs]
  rfl

theorem extract_two_spans {p0 c1 p1 c2 p2 : List Char}
    (h0 : noLt p0 = true) (h1 : noLt c1 = true) (h2 : noLt p1 = true)
    (h3 : noLt c2 = true) (h4 : noLt p2 = true) :
    _extract_answer_tag
        (p0 ++ (openTagL ++ (c1 ++ (closeTagL ++
          (p1 ++ (openTagL ++ (c2 ++ (closeTagL ++ p2)))))))) = some (pyStrip c2) := by
  unfold _extract_answer_tag
  rw [scanAnswers_block h0 h1, scanAnswers_block h2 h3, scanAnswers_noLt h4]
  simp [openTagL, List.isEmpty_iff]

theorem scanAnswers_open_no_close {p0 c1 : List Char}
    (h0 : noLt p0 = true) (h1 : noLt c1 = true) :
    scanAnswers (p0 ++ (openTagL ++ c1)) = [] := by
  unfold scanAnswers
  rw [scanAnswersF_succ]
  rw [openTagL_head, findTag_append_noLt h0, ← openTagL_head, findTag_open_self]
  show (match findTag closeTagL c1 with
        | none => []
        | some (content, afterClose) =>
          content :: scanAnswersF (p0 ++ (openTagL ++ c1)).length afterClose)
      = []
  rw [closeTagL_head, findTag_noLt_none h1]

theorem extract_open_no_close {p0 c1 : List Char}
    (h0 : noLt p0 = true) (h1 : noLt c1 = true) :
    _extract_answer_tag (p0 ++ (openTagL ++ c1)) = none := by
  unfold _extract_answer_tag
  rw [scanAnswers_open_no_close h0 h1]
  simp [openTagL, List.isEmpty_iff]

theorem extract_none_of_no_spans {text : List Char} (h : scanAnswers text = []) :
    _extract_answer_tag text = none := by
  unfold _extract_answer_tag
  rw [h]
  simp

theorem parse_number_wrap {c : List Char} (hc : noLt c = true) :
    parse_number (openTagL ++ (c ++ closeTagL)) = parseNumberInner (pyStrip c) := by
  unfold parse_number
  rw [extract_wrap hc]
  rw [if_neg (by simp [openTagL])]

/-! ## Claim C4: the last tagged span wins -/

/-- C4.  For raw text built around answer-delimiter spans, extraction uses
only the last non-overlapping span: with two spans present the result is the
second span's stripped content and the extracted integer is the numeric rule
applied to that content alone; with an open tag but no close tag anywhere,
extraction and integer parsing yield `None` regardless of the untagged
content.  (Fillers and contents are constrained not to contain `<`, the only
character that can participate in a tag.) -/
theorem C4_last_span_wins :
    (∀ p0 c1 p1 c2 p2 : List Char,
        noLt p0 = true → noLt c1 = true → noLt p1 = true → noLt c2 = true → noLt p2 = true →
        _extract_answer_tag
            (p0 ++ (openTagL ++ (c1 ++ (closeTagL ++
              (p1 ++ (openTagL ++ (c2 ++ (closeTagL ++ p2)))))))) = some (pyStrip c2)
        ∧ parse_number
            (p0 ++ (openTagL ++ (c1 ++ (closeTagL ++
              (p1 ++ (openTagL ++ (c2 ++ (closeTagL ++ p2)))))))) =
            parseNumberInner (pyStrip c2))
    ∧ (∀ p0 c1 : List Char, noLt p0 = true → noLt c1 = true →
        parse_number (p0 ++ (openTagL ++ c1)) = none) := by
  constructor
  · intro p0 c1 p1 c2 p2 h0 h1 h2 h3 h4
    have he := extract_two_spans h0 h1 h2 h3 h4
    refine ⟨he, ?_⟩
    unfold parse_number
    rw [he]
    simp [openTagL, List.isEmpty_iff]
  · intro p0 c1 h0 h1
    have he := extract_open_no_close h0 h1
    unfold parse_number
    rw [he]
    simp [openTagL, List.isEmpty_iff]

/-- Witness for C4 at concrete inputs. -/
theorem C4_last_span_wins_witness :
    _extract_answer_tag
        (S "I count 6 " ++ (openTagL ++ (S " 5 " ++ (closeTagL ++
          (S " recount: " ++ (openTagL ++ (S "7" ++ (closeTagL ++ S " done")))))))) =
      some (pyStrip (S "7"))
    ∧ parse_number (S "untagged 42 " ++ (openTagL ++ S "still 9 unclosed")) = none :=
  ⟨((C4_last_span_wins.1 (S "I count 6 ") (S " 5 ") (S " recount: ") (S "7") (S " done")
      (by decide) (by decide) (by decide) (by decide) (by decide)).1),
    C4_last_span_wins.2 (S "untagged 42 ") (S "still 9 unclosed") (by decide) (by decide)⟩

/-! ## Claim C3: ordered-pair scoring -/

/-- C3 counterexample.  A three-element prediction whose first two elements
match the two ground-truth positions scores 0.0, not 1.0: elements beyond the
first two are not ignored — they disqualify the exact-length test. -/
theorem C3_extra_element_counterexample :
    List.take 2 [S "a", S "b", S "c"] = [S "a", S "b"]
    ∧ _compare_pair_lists [S "a", S "b", S "c"] [S "a", S "b"] = 0
    ∧ (0 : ℚ) ≠ 1 := by
  refine ⟨by decide, rfl, by norm_num⟩

/-- C3 as amended: against a two-element ground truth, the sample scores 1.0
exactly when the prediction is exactly the ground truth (two elements, both
positions matching — a longer prediction scores 0.0 even when its first two
elements match); it scores 0.5 exactly when the prediction is a single
element equal to ground-truth position 0; every other case scores 0.0. -/
theorem C3_pair_scoring :
    ∀ pred gt : List (List Char), gt.length = 2 →
      ((_compare_pair_lists pred gt = 1 ↔ pred = gt)
      ∧ (_compare_pair_lists pred gt = 1 / 2 ↔ pred.length = 1 ∧ pred.head? = gt.head?)
      ∧ (2 < pred.length → _compare_pair_lists pred gt = 0)
      ∧ (_compare_pair_lists pred gt = 1 ∨ _compare_pair_lists pred gt = 1 / 2 ∨
          _compare_pair_lists pred gt = 0)) := by
  intro pred gt hgt
  obtain ⟨g0, g1, rfl⟩ : ∃ g0 g1, gt = [g0, g1] := by
    cases gt with
    | nil => simp at hgt
    | cons g0 t =>
      cases t with
      | nil => simp at hgt
      | cons g1 t2 =>
        cases t2 with
        | nil => exact ⟨g0, g1, rfl⟩
        | cons x xs => simp at hgt
  match pred with
  | [] =>
    refine ⟨by norm_num [_compare_pair_lists]; simp, by norm_num [_compare_pair_lists], ?_, ?_⟩
    · intro h; simp at h
    · right; right; norm_num [_compare_pair_lists]
  | [p0] =>
    by_cases h : p0 = g0
    · subst h
      refine ⟨by norm_num [_compare_pair_lists], by norm_num [_compare_pair_lists], ?_, ?_⟩
      · intro h2; simp at h2
      · right; left; norm_num [_compare_pair_lists]
    · refine ⟨by norm_num [_compare_pair_lists, h], by norm_num [_compare_pair_lists, h], ?_, ?_⟩
      · intro h2; simp at h2
      · right; right; norm_num [_compare_pair_lists, h]
  | [p0, p1] =>
    by_cases h : p0 = g0 ∧ p1 = g1
    · obtain ⟨h1, h2⟩ := h
      subst h1 h2
      refine ⟨by norm_num [_compare_pair_lists], by norm_num [_compare_pair_lists], ?_, ?_⟩
      · intro h2; simp at h2
      · left; norm_num [_compare_pair_lists]
    · refine ⟨by norm_num [_compare_pair_lists, h], by norm_num [_compare_pair_lists, h], ?_, ?_⟩
      · intro h2; simp at h2
      · right; right; norm_num [_compare_pair_lists, h]
  | p0 :: p1 :: p2 :: rest =>
    refine ⟨by norm_num [_compare_pair_lists]; simp, by norm_num [_compare_pair_lists], ?_, ?_⟩
    · intro _; norm_num [_compare_pair_lists]
    · right; right; norm_num [_compare_pair_lists]

/-- Witness for C3 at concrete inputs. -/
theorem C3_pair_scoring_witness :
    _compare_pair_lists [S "pikachu"] [S "eevee", S "pikachu"] = 1 ↔
      [S "pikachu"] = [S "eevee", S "pikachu"] :=
  (C3_pair_scoring [S "pikachu"] [S "eevee", S "pikachu"] (by decide)).1

/-! ## Claim C10: scorer-side boolean normalisation -/

/-- C10.  `_normalize_boolean` on strings tests affirmative substrings before
negative ones, by containment rather than whole words: any string containing
`yes`, `true` or `1` (after lower-casing and stripping) normalises to `True`
even when a negation word is present; the string `-1` normalises to `True`
while the integer `-1` normalises to `False`; and the precedence is the
opposite of the Extractor's boolean rule, which sends the same span to
`False`. -/
theorem C10_normalize_boolean_precedence :
    (∀ s : List Char,
        (containsSub (S "yes") (pyStrip (pyLower s)) = true ∨
         containsSub (S "true") (pyStrip (pyLower s)) = true ∨
         containsSub (S "1") (pyStrip (pyLower s)) = true) →
        _normalize_boolean (.pstr s) = some true)
    ∧ _normalize_boolean (.pstr (S "-1")) = some true
    ∧ _normalize_boolean (.pint (-1)) = some false
    ∧ _normalize_boolean (.pstr (S "no, yes")) = some true
    ∧ parse_boolean (openTagL ++ (S "no, yes" ++ closeTagL)) = some false := by
  refine ⟨?_, by decide, by decide, by decide, by decide⟩
  intro s h
  rcases h with h | h | h <;> simp [_normalize_boolean, pyStr, h]

/-- Witness for C10 at a concrete input. -/
theorem C10_normalize_boolean_witness :
    _normalize_boolean (.pstr (S "No but Yes maybe")) = some true :=
  C10_normalize_boolean_precedence.1 (S "No but Yes maybe") (Or.inl (by decide))

/-! ## Claim C7: set-F1 symmetry and empty-set cases -/

/-- C7.  The per-sample set F1 of the verbose-intersection archetype is
invariant under permuting the ground-truth or prediction elements; when both
normalised sets are empty the F1 is 1.0; when exactly one is empty it is
0.0, in both directions. -/
theorem C7_f1_symmetry :
    (∀ gt gt' pred pred' : List PyVal, gt.Perm gt' → pred.Perm pred' →
        sampleF1v (.plist gt) (.plist pred) = sampleF1v (.plist gt') (.plist pred'))
    ∧ (∀ gtv predv : PyVal, _to_set gtv = [] → _to_set predv = [] →
        sampleF1v gtv predv = 1)
    ∧ (∀ gtv predv : PyVal, _to_set gtv = [] → _to_set predv ≠ [] →
        sampleF1v gtv predv = 0)
    ∧ (∀ gtv predv : PyVal, _to_set gtv ≠ [] → _to_set predv = [] →
        sampleF1v gtv predv = 0) := by
  have hset : ∀ l l' : List PyVal, l.Perm l' →
      (_to_set (.plist l)).toFinset = (_to_set (.plist l')).toFinset := by
    intro l l' h
    exact List.toFinset_eq_of_perm _ _ ((h.map _).filter _)
  have hne : ∀ l : List Char, ∀ ls : List (List Char),
      ls ≠ [] → ls.toFinset ≠ ∅ := by
    intro _ ls h
    cases ls with
    | nil => exact absurd rfl h
    | cons a t =>
      intro hx
      have : a ∈ (a :: t).toFinset := by simp
      rw [hx] at this
      simp at this
  refine ⟨?_, ?_, ?_, ?_⟩
  · intro gt gt' pred pred' h1 h2
    unfold sampleF1v
    rw [hset _ _ h1, hset _ _ h2]
  · intro gtv predv h1 h2
    unfold sampleF1v
    rw [h1, h2]
    simp [sampleF1]
  · intro gtv predv h1 h2
    unfold sampleF1v
    rw [h1]
    have := hne [] _ h2
    simp [sampleF1, this]
  · intro gtv predv h1 h2
    unfold sampleF1v
    rw [h2]
    have := hne [] _ h1
    simp [sampleF1, this]

/-- Witness for C7 at concrete inputs. -/
theorem C7_f1_symmetry_witness :
    sampleF1v (.plist [.pstr (S "A"), .pstr (S "B")]) (.plist [.pstr (S "B"), .pstr (S "C")])
      = sampleF1v (.plist [.pstr (S "B"), .pstr (S "A")])
          (.plist [.pstr (S "C"), .pstr (S "B")]) :=
  C7_f1_symmetry.1 [.pstr (S "A"), .pstr (S "B")] [.pstr (S "B"), .pstr (S "A")]
    [.pstr (S "B"), .pstr (S "C")] [.pstr (S "C"), .pstr (S "B")]
    (List.Perm.swap _ _ _) (List.Perm.swap _ _ _)

/-! ## Fold lemmas for the two scoring loops -/

theorem verboseStep_unmatched {rows : List RowRec} {p : PredRec} {st : Nat × List ℚ}
    (h : predMatched rows p = false) : verboseStep rows st p = st := by
  unfold verboseStep
  unfold predMatched at h
  cases hm : matchedRow rows p with
  | none => rfl
  | some row => rw [hm] at h; simp at h

theorem accStep_unmatched {qt kl hl : String} {rows : List RowRec} {p : PredRec} {st : AccSt}
    (h : predMatched rows p = false) : accStep qt kl hl rows st p = st := by
  unfold accStep
  unfold predMatched at h
  cases hm : matchedRow rows p with
  | none => rfl
  | some row => rw [hm] at h; simp at h

theorem foldl_matched_filter {σ : Type} (step : σ → PredRec → σ) (rows : List RowRec)
    (hstep : ∀ st p, predMatched rows p = false → step st p = st) :
    ∀ preds : List PredRec, ∀ st : σ,
      (preds.filter (predMatched rows)).foldl step st = preds.foldl step st := by
  intro preds
  induction preds with
  | nil => intro st; rfl
  | cons p rest ih =>
    intro st
    cases hp : predMatched rows p with
    | true => simp [List.filter, hp, ih]
    | false => simp [List.filter, hp, ih, hstep st p hp]

theorem verbose_fold_matched (rows : List RowRec) :
    ∀ preds : List PredRec, ∀ st : Nat × List ℚ,
      (preds.foldl (verboseStep rows) st).1 = st.1 + preds.countP (predMatched rows) := by
  intro preds
  induction preds with
  | nil => intro st; simp
  | cons p rest ih =>
    intro st
    rw [List.foldl_cons, ih, List.countP_cons]
    cases hp : predMatched rows p with
    | false =>
      rw [verboseStep_unmatched hp]
      simp [hp]
    | true =>
      unfold predMatched at hp
      cases hm : matchedRow rows p with
      | none => rw [hm] at hp; simp at hp
      | some row =>
        unfold verboseStep
        rw [hm]
        simp [hp]
        omega

theorem accStep_matched_succ {qt kl hl : String} {rows : List RowRec} {p : PredRec}
    {st : AccSt} {row : RowRec} (hm : matchedRow rows p = some row) :
    (accStep qt kl hl rows st p).matched = st.matched + 1 := by
  unfold accStep
  rw [hm]

theorem acc_fold_matched (qt kl hl : String) (rows : List RowRec) :
    ∀ preds : List PredRec, ∀ st : AccSt,
      (preds.foldl (accStep qt kl hl rows) st).matched
        = st.matched + preds.countP (predMatched rows) := by
  intro preds
  induction preds with
  | nil => intro st; simp
  | cons p rest ih =>
    intro st
    rw [List.foldl_cons, ih, List.countP_cons]
    cases hp : predMatched rows p with
    | false =>
      rw [accStep_unmatched hp]
      simp [hp]
    | true =>
      unfold predMatched at hp
      cases hm : matchedRow rows p with
      | none => rw [hm] at hp; simp at hp
      | some row =>
        rw [accStep_matched_succ hm]
        simp [hp]
        omega

theorem length_filter_not_of_countP (q : PredRec → Bool) :
    ∀ preds : List PredRec,
      preds.length - preds.countP q = (preds.filter (fun p => !q p)).length := by
  intro preds
  induction preds with
  | nil => rfl
  | cons p rest ih =>
    have hc : rest.countP q ≤ rest.length := List.countP_le_length _
    cases hp : q p with
    | true => simp [List.countP_cons, List.filter, hp, ← ih]
    | false =>
      simp [List.countP_cons, List.filter, hp, ← ih]
      omega

/-! ## Claim C8: unmatched prediction records -/

/-- C8.  Prediction records whose key is missing, empty or not a dataset id
never change the reported score — restricting the prediction list to the
matched records leaves the score of either metric unchanged — and the
`skipped` counter is exactly the number of such unmatched records (ground
truth plays no role in it). -/
theorem C8_unmatched_never_scored :
    ∀ qt kl hl : String, ∀ rows : List RowRec, ∀ preds : List PredRec,
      (evaluate qt kl hl rows (preds.filter (predMatched rows))).score
        = (evaluate qt kl hl rows preds).score
      ∧ (evaluate qt kl hl rows preds).skipped
        = (preds.filter (fun p => !predMatched rows p)).length := by
  intro qt kl hl rows preds
  unfold evaluate
  by_cases hq : qt = INTERSECTION ∧ hl = "Verbose-Response"
  · rw [if_pos hq, if_pos hq]
    constructor
    · rw [foldl_matched_filter _ rows (fun _ _ h => verboseStep_unmatched h)]
    · have hm := verbose_fold_matched rows preds (0, [])
      simp at hm
      simp [hm, length_filter_not_of_countP (predMatched rows) preds]
  · rw [if_neg hq, if_neg hq]
    constructor
    · rw [foldl_matched_filter _ rows (fun _ _ h => accStep_unmatched h)]
    · have hm := acc_fold_matched qt kl hl rows preds ⟨0, 0, 0⟩
      simp at hm
      simp [hm, length_filter_not_of_countP (predMatched rows) preds]

/-! ## Claim C6: malformed ground truth -/

theorem accUpdate_malformed {qt kl hl : String} {gt : PyVal}
    (h : accMalformed qt kl hl gt = true) (pv : PyVal) (t : Nat) (c : ℚ) :
    accUpdate qt kl hl gt pv t c = (t, c) := by
  unfold accUpdate
  unfold accMalformed at h
  by_cases h1 : qt = COUNT_FREQUENCY_TOOL ∨ qt = COUNT_CORRECTNESS_ENV ∨
      qt = COUNT_FREQUENCY_ENV ∨ qt = FIND_ROUND_LARGEST_VALUE_ENV ∨ qt = WEIGHTED_SUMMATION_ENV
  · rw [if_pos h1] at h ⊢
    cases hn : _to_number gt with
    | none => rfl
    | some g => rw [hn] at h; simp at h
  · rw [if_neg h1] at h ⊢
    by_cases h2 : qt = FIND_DUPLICATES_TOOL
    · rw [if_pos h2] at h ⊢
      cases hn : _normalize_boolean gt with
      | none => rfl
      | some g => rw [hn] at h; simp at h
    · rw [if_neg h2] at h ⊢
      by_cases h3 : qt = FIND_TARGET_OFFSETS_TOOL
      · rw [if_pos h3] at h ⊢
        cases hn : _normalize_pair_list kl gt with
        | none => rfl
        | some g => rw [hn] at h; simp at h
      · rw [if_neg h3] at h ⊢
        by_cases h4 : qt = INTERSECTION ∧ hl = "Concise-Response"
        · rw [if_pos h4] at h ⊢
          simp [h]
        · rw [if_neg h4] at h ⊢

theorem accuracyArchetype_not_verbose {qt hl : String} (h : accuracyArchetype qt hl) :
    ¬(qt = INTERSECTION ∧ hl = "Verbose-Response") := by
  unfold accuracyArchetype at h
  rintro ⟨rfl, rfl⟩
  rcases h with (h | h | h | h | h) | h | h | ⟨_, h⟩ <;> revert h <;> decide

/-- C6 counterexample.  A matched sample whose ground truth is `None` for an
integer archetype is excluded from the denominator (`total = 0` though
`matched = 1`), but the exclusion is not surfaced in any skip count: the
reported `skipped` stays 0 (it counts only unmatched prediction records). -/
theorem C6_no_skip_count_counterexample :
    (evaluate COUNT_FREQUENCY_TOOL "knowledge_intensive" "Concise-Response"
        [⟨.pstr (S "s1"), .pnone⟩]
        [⟨.pstr (S "s1"), .pnone, .pnone, .pint 3, .pnone⟩]).matched = 1
    ∧ (evaluate COUNT_FREQUENCY_TOOL "knowledge_intensive" "Concise-Response"
        [⟨.pstr (S "s1"), .pnone⟩]
        [⟨.pstr (S "s1"), .pnone, .pnone, .pint 3, .pnone⟩]).total = some 0
    ∧ (evaluate COUNT_FREQUENCY_TOOL "knowledge_intensive" "Concise-Response"
        [⟨.pstr (S "s1"), .pnone⟩]
        [⟨.pstr (S "s1"), .pnone, .pnone, .pint 3, .pnone⟩]).skipped = 0 := by
  refine ⟨by decide, by decide, by decide⟩

/-- C6 as amended: for every accuracy-metric archetype, a matched sample
whose ground truth cannot be normalised is excluded from both the numerator
and the denominator — appending such a record changes neither `total`,
`correct` nor the score — but no aggregate counter surfaces the exclusion:
the reported `skipped` also stays unchanged (it counts only unmatched
records), the drop being visible only implicitly as `matched - total`. -/
theorem C6_malformed_gt_excluded_not_surfaced :
    ∀ qt kl hl : String, ∀ rows : List RowRec, ∀ preds : List PredRec,
      ∀ p : PredRec, ∀ row : RowRec,
      accuracyArchetype qt hl →
      matchedRow rows p = some row →
      accMalformed qt kl hl row.answer = true →
      (evaluate qt kl hl rows (preds ++ [p])).score = (evaluate qt kl hl rows preds).score
      ∧ (evaluate qt kl hl rows (preds ++ [p])).total = (evaluate qt kl hl rows preds).total
      ∧ (evaluate qt kl hl rows (preds ++ [p])).correct
        = (evaluate qt kl hl rows preds).correct
      ∧ (evaluate qt kl hl rows (preds ++ [p])).skipped
        = (evaluate qt kl hl rows preds).skipped
      ∧ (evaluate qt kl hl rows (preds ++ [p])).matched
        = (evaluate qt kl hl rows preds).matched + 1 := by
  intro qt kl hl rows preds p row harch hm hmal
  have hnv := accuracyArchetype_not_verbose harch
  unfold evaluate
  rw [if_neg hnv, if_neg hnv]
  have hfold : (preds ++ [p]).foldl (accStep qt kl hl rows) ⟨0, 0, 0⟩
      = accStep qt kl hl rows (preds.foldl (accStep qt kl hl rows) ⟨0, 0, 0⟩) p := by
    rw [List.foldl_append]
    rfl
  have hstep : ∀ st : AccSt, accStep qt kl hl rows st p = ⟨st.matched + 1, st.total, st.correct⟩ := by
    intro st
    have hb : accStep qt kl hl rows st p
        = ⟨st.matched + 1,
            (accUpdate qt kl hl row.answer p.predAnswer st.total st.correct).1,
            (accUpdate qt kl hl row.answer p.predAnswer st.total st.correct).2⟩ := by
      unfold accStep
      rw [hm]
    rw [hb, accUpdate_malformed hmal]
  rw [hfold, hstep]
  set st := preds.foldl (accStep qt kl hl rows) ⟨0, 0, 0⟩ with hst
  refine ⟨rfl, rfl, rfl, ?_, rfl⟩
  simp

/-- Witness for C6 at concrete inputs. -/
theorem C6_malformed_gt_witness :
    (evaluate COUNT_FREQUENCY_TOOL "knowledge_intensive" "Concise-Response"
        [⟨.pstr (S "s1"), .pnone⟩]
        ([] ++ [⟨.pstr (S "s1"), .pnone, .pnone, .pint 3, .pnone⟩])).skipped
      = (evaluate COUNT_FREQUENCY_TOOL "knowledge_intensive" "Concise-Response"
          [⟨.pstr (S "s1"), .pnone⟩] []).skipped :=
  (C6_malformed_gt_excluded_not_surfaced COUNT_FREQUENCY_TOOL "knowledge_intensive"
    "Concise-Response" [⟨.pstr (S "s1"), .pnone⟩] []
    ⟨.pstr (S "s1"), .pnone, .pnone, .pint 3, .pnone⟩ ⟨.pstr (S "s1"), .pnone⟩
    (Or.inl (Or.inl rfl)) rfl rfl).2.2.2.1

/-! ## Exactness of the binary64 model on integers up to 2^53 -/

theorem natLog2F_spec : ∀ f n, 0 < n → n ≤ f →
    2 ^ natLog2F f n ≤ n ∧ n < 2 ^ (natLog2F f n + 1) := by
  intro f
  induction f with
  | zero => intro n h1 h2; omega
  | succ a ih =>
    intro n h1 h2
    by_cases h : 2 ≤ n
    · have hn2 : 0 < n / 2 := by omega
      have hle : n / 2 ≤ a := by omega
      obtain ⟨ih1, ih2⟩ := ih (n / 2) hn2 hle
      have hrw : natLog2F (a + 1) n = natLog2F a (n / 2) + 1 := by
        simp [natLog2F, h]
      rw [hrw]
      set k := natLog2F a (n / 2) with hk
      have e1 : 2 ^ (k + 1) = 2 * 2 ^ k := by rw [pow_succ]; ring
      have e2 : 2 ^ (k + 1 + 1) = 2 * 2 ^ (k + 1) := by rw [pow_succ (2 : Nat) (k + 1)]; ring
      omega
    · have hn : n = 1 := by omega
      subst hn
      have hrw : natLog2F (a + 1) 1 = 0 := by simp [natLog2F]
      rw [hrw]
      omega

theorem natLog2_spec {n : Nat} (h : 0 < n) :
    2 ^ natLog2 n ≤ n ∧ n < 2 ^ (natLog2 n + 1) :=
  natLog2F_spec n n h le_rfl

theorem two_pow_lt_iff {a b : Nat} : 2 ^ a < 2 ^ b ↔ a < b :=
  Nat.pow_lt_pow_iff_right (by omega)

theorem rne_exact {d : Nat} (hd : 0 < d) (k : Nat) : rne (k * d) d = k := by
  have h1 : k * d / d = k := Nat.mul_div_cancel k hd
  have h2 : k * d % d = 0 := Nat.mul_mod_left k d
  simp only [rne]
  rw [h1, h2]
  simp [hd]

theorem qGePow2_nonneg {n d : Nat} {e : Int} (he : 0 ≤ e) :
    qGePow2 n d e = true ↔ d * 2 ^ e.toNat ≤ n := by
  simp [qGePow2, he]

theorem dblExp_eq {v D : Nat} (hv : 0 < v) (hD : 0 < D) :
    dblExp (v * D) D = (natLog2 v : Int) - 52 := by
  obtain ⟨hv1, hv2⟩ := natLog2_spec hv
  obtain ⟨hD1, hD2⟩ := natLog2_spec hD
  obtain ⟨hm1, hm2⟩ := @natLog2_spec (v * D) (Nat.mul_pos hv hD)
  set lv := natLog2 v with hlv
  set l2 := natLog2 D with hl2
  set l1 := natLog2 (v * D) with hl1
  have hl1a : lv + l2 ≤ l1 := by
    have hp : 2 ^ (lv + l2) ≤ v * D := by
      rw [pow_add]
      exact Nat.mul_le_mul hv1 hD1
    have := two_pow_lt_iff.mp (lt_of_le_of_lt hp hm2)
    omega
  have hl1b : l1 ≤ lv + l2 + 1 := by
    have hp : v * D < 2 ^ (lv + l2 + 2) := by
      have s1 : v * D < 2 ^ (lv + 1) * D := by
        exact Nat.mul_lt_mul_of_lt_of_le hv2 le_rfl hD
      have s2 : 2 ^ (lv + 1) * D < 2 ^ (lv + 1) * 2 ^ (l2 + 1) := by
        exact Nat.mul_lt_mul_of_le_of_lt le_rfl hD2 (by positivity)
      calc v * D < 2 ^ (lv + 1) * D := s1
        _ < 2 ^ (lv + 1) * 2 ^ (l2 + 1) := s2
        _ = 2 ^ (lv + l2 + 2) := by rw [← pow_add]; ring_nf
    have := two_pow_lt_iff.mp (lt_of_le_of_lt hm1 hp)
    omega
  unfold dblExp
  rw [← hl1, ← hl2]
  show (if qGePow2 (v * D) D ((l1 : Int) - (l2 : Int) - 52 + 52) = true
        then (l1 : Int) - (l2 : Int) - 52
        else (l1 : Int) - (l2 : Int) - 52 - 1) = (lv : Int) - 52
  have hcase : l1 = lv + l2 ∨ l1 = lv + l2 + 1 := by omega
  rcases hcase with hc | hc
  · have he : (l1 : Int) - l2 - 52 + 52 = (lv : Int) := by
      rw [hc]; push_cast; ring
    rw [he]
    have hnn : (0 : Int) ≤ (lv : Int) := by positivity
    have htrue : qGePow2 (v * D) D (lv : Int) = true := by
      rw [qGePow2_nonneg hnn]
      have : ((lv : Int).toNat) = lv := Int.toNat_natCast lv
      rw [this]
      calc D * 2 ^ lv ≤ D * v := Nat.mul_le_mul_left D hv1
        _ = v * D := Nat.mul_comm D v
    rw [htrue]
    simp only [if_true]
    rw [hc]
    push_cast
    ring
  · have he : (l1 : Int) - l2 - 52 + 52 = ((lv : Int) + 1) := by
      rw [hc]; push_cast; ring
    rw [he]
    have hnn : (0 : Int) ≤ (lv : Int) + 1 := by positivity
    have hfalse : qGePow2 (v * D) D ((lv : Int) + 1) = false := by
      rw [← Bool.not_eq_true, qGePow2_nonneg hnn]
      have ht : (((lv : Int) + 1).toNat) = lv + 1 := by omega
      rw [ht]
      intro hcon
      have : v * D < D * 2 ^ (lv + 1) := by
        calc v * D < 2 ^ (lv + 1) * D :=
          Nat.mul_lt_mul_of_lt_of_le hv2 le_rfl hD
        _ = D * 2 ^ (lv + 1) := Nat.mul_comm _ _
      omega
    rw [hfalse]
    simp only [Bool.false_eq_true, if_false]
    rw [hc]
    push_cast
    ring

theorem pyFloatTruncVal_exact {v D : Nat} (hD : 0 < D) (hv : v ≤ 2 ^ 53) :
    pyFloatTruncVal (v * D) D = v := by
  rcases Nat.eq_zero_or_pos v with rfl | hvpos
  · simp [pyFloatTruncVal]
  · have hn0 : ¬(v * D = 0) := by positivity
    unfold pyFloatTruncVal
    rw [if_neg hn0]
    unfold dblRound
    rw [dblExp_eq hvpos hD]
    obtain ⟨h1, h2⟩ := natLog2_spec hvpos
    set lv := natLog2 v with hlv
    clear_value lv
    have hlv53 : lv ≤ 53 := by
      by_contra hcon
      have hp : 2 ^ 54 ≤ 2 ^ lv := Nat.pow_le_pow_right (by omega) (by omega)
      have hq : (2 : Nat) ^ 53 < 2 ^ 54 := by norm_num
      omega
    unfold dblRoundM
    by_cases hc53 : lv = 53
    · subst hc53
      have hveq : v = 2 ^ 53 := by omega
      have he : ((53 : Nat) : Int) - 52 = 1 := by norm_num
      rw [he]
      have hnn : (0 : Int) ≤ 1 := by norm_num
      rw [if_pos hnn]
      have ht : ((1 : Int).toNat) = 1 := rfl
      rw [ht]
      have hm : rne (v * D) (D * 2 ^ 1) = 2 ^ 52 := by
        have hx : v * D = 2 ^ 52 * (D * 2 ^ 1) := by rw [hveq]; ring
        rw [hx, rne_exact (by positivity)]
      rw [hm]
      have hne : ¬((2 : Nat) ^ 52 = 2 ^ 53) := by norm_num
      rw [if_neg hne]
      unfold truncPow2
      rw [if_pos hnn, ht, hveq]
      ring
    · have hlv52 : lv ≤ 52 := by omega
      by_cases hc52 : lv = 52
      · subst hc52
        have he : ((52 : Nat) : Int) - 52 = 0 := by norm_num
        rw [he]
        have hnn : (0 : Int) ≤ 0 := le_rfl
        rw [if_pos hnn]
        have ht : ((0 : Int).toNat) = 0 := rfl
        rw [ht]
        have hm : rne (v * D) (D * 2 ^ 0) = v := by
          have hx : v * D = v * (D * 2 ^ 0) := by ring
          rw [hx, rne_exact (by positivity)]
        rw [hm]
        have hne : ¬(v = 2 ^ 53) := by
          have hx : v < 2 ^ (52 + 1) := h2
          have hy : (2 : Nat) ^ (52 + 1) = 2 ^ 53 := by norm_num
          omega
        rw [if_neg hne]
        unfold truncPow2
        rw [if_pos hnn, ht]
        ring
      · have hlt : lv < 52 := by omega
        have hneg : ¬((0 : Int) ≤ (lv : Int) - 52) := by omega
        rw [if_neg hneg]
        have ht : ((-((lv : Int) - 52)).toNat) = 52 - lv := by omega
        rw [ht]
        have hm : rne (v * D * 2 ^ (52 - lv)) D = v * 2 ^ (52 - lv) := by
          have hx : v * D * 2 ^ (52 - lv) = (v * 2 ^ (52 - lv)) * D := by ring
          rw [hx, rne_exact hD]
        rw [hm]
        have hmlt : v * 2 ^ (52 - lv) < 2 ^ 53 := by
          have s1 : v * 2 ^ (52 - lv) < 2 ^ (lv + 1) * 2 ^ (52 - lv) :=
            Nat.mul_lt_mul_of_lt_of_le h2 le_rfl (by positivity)
          have s2 : 2 ^ (lv + 1) * 2 ^ (52 - lv) = 2 ^ 53 := by
            rw [← pow_add]
            congr 1
            omega
          omega
        have hne : ¬(v * 2 ^ (52 - lv) = 2 ^ 53) := by omega
        rw [if_neg hne]
        unfold truncPow2
        rw [if_neg hneg, ht]
        exact Nat.mul_div_cancel v (by positivity)

/-! ## Numeric-token lemmas -/

theorem takeWhile_append_all {p : Char → Bool} {xs ys : List Char}
    (h : ∀ x ∈ xs, p x = true) :
    (xs ++ ys).takeWhile p = xs ++ ys.takeWhile p := by
  induction xs with
  | nil => rfl
  | cons x xs' ih =>
    have hx : p x = true := h x (by simp)
    have ih2 := ih fun c hc => h c (by simp [hc])
    simp [List.takeWhile_cons, hx, ih2]

theorem dropWhile_append_all {p : Char → Bool} {xs ys : List Char}
    (h : ∀ x ∈ xs, p x = true) :
    (xs ++ ys).dropWhile p = ys.dropWhile p := by
  induction xs with
  | nil => rfl
  | cons x xs' ih =>
    simp only [List.cons_append, List.dropWhile_cons, h x (by simp)]
    exact ih fun c hc => h c (by simp [hc])

theorem takeWhile_all {p : Char → Bool} {xs : List Char} (h : ∀ x ∈ xs, p x = true) :
    xs.takeWhile p = xs := by
  have hx := @takeWhile_append_all p xs [] h
  simpa using hx

theorem dropWhile_all {p : Char → Bool} {xs : List Char} (h : ∀ x ∈ xs, p x = true) :
    xs.dropWhile p = [] := by
  have hx := @dropWhile_append_all p xs [] h
  simpa using hx

theorem matchNumAt_not_dash {c : Char} {rest : List Char} (h : ¬c = '-') :
    matchNumAt (c :: rest) = matchNumCore (c :: rest) := by
  show (if c = '-' then
          match matchNumCore rest with
          | some (t, r) => some ('-' :: t, r)
          | none => none
        else matchNumCore (c :: rest)) = matchNumCore (c :: rest)
  rw [if_neg h]

theorem matchNumCore_digits {d : Char} {body : List Char}
    (hd : d.isDigit = true) (hb : ∀ c ∈ body, digComma c = true) :
    matchNumCore (d :: body) = some (d :: body, []) := by
  show (if d.isDigit = true then
          some (d :: (body.takeWhile digComma ++ (fracSpan (body.dropWhile digComma)).1),
            (fracSpan (body.dropWhile digComma)).2)
        else none) = some (d :: body, [])
  rw [if_pos hd, takeWhile_all hb, dropWhile_all hb]
  simp [fracSpan]

theorem matchNumCore_digits_frac {d : Char} {body : List Char}
    (hd : d.isDigit = true) (hb : ∀ c ∈ body, digComma c = true) :
    matchNumCore (d :: (body ++ ['.', '0'])) = some (d :: (body ++ ['.', '0']), []) := by
  show (if d.isDigit = true then
          some (d :: ((body ++ ['.', '0']).takeWhile digComma ++
              (fracSpan ((body ++ ['.', '0']).dropWhile digComma)).1),
            (fracSpan ((body ++ ['.', '0']).dropWhile digComma)).2)
        else none) = some (d :: (body ++ ['.', '0']), [])
  rw [if_pos hd, takeWhile_append_all hb, dropWhile_append_all hb]
  have h1 : List.takeWhile digComma ['.', '0'] = [] := by decide
  have h2 : List.dropWhile digComma ['.', '0'] = ['.', '0'] := by decide
  rw [h1, h2]
  have h3 : fracSpan ['.', '0'] = (['.', '0'], []) := by decide
  rw [h3]
  simp

theorem numFindAllF_nil : ∀ f, numFindAllF f [] = [] := by
  intro f
  cases f <;> rfl

theorem numFindAll_single {c : Char} {rest : List Char}
    (h : matchNumAt (c :: rest) = some (c :: rest, [])) :
    numFindAll (c :: rest) = [c :: rest] := by
  unfold numFindAll
  show numFindAllF (rest.length + 1 + 1) (c :: rest) = [c :: rest]
  rw [show numFindAllF (rest.length + 1 + 1) (c :: rest)
      = match matchNumAt (c :: rest) with
        | some (t, r) => t :: numFindAllF (rest.length + 1) r
        | none => numFindAllF (rest.length + 1) rest from rfl]
  rw [h]
  show (c :: rest) :: numFindAllF (rest.length + 1) [] = [c :: rest]
  rw [numFindAllF_nil]

theorem tryConvert_single {t : List Char} {v : Int}
    (h : pyIntFloat (t.filter (fun c => !(c == ','))) = some v) :
    tryConvert [t] = some v := by
  unfold tryConvert
  rw [h]

theorem parseNumberInner_single {inner : List Char} {v : Int}
    (h1 : numFindAll inner = [inner])
    (h2 : pyIntFloat (inner.filter (fun c => !(c == ','))) = some v) :
    parseNumberInner inner = some v := by
  unfold parseNumberInner
  rw [h1]
  simp only [List.isEmpty_cons, List.reverse_cons, List.reverse_nil, List.nil_append]
  rw [if_neg (by simp)]
  exact tryConvert_single h2

/-! ## `int(float(·))` on the three integer representations -/

theorem parseFloatLit_not_dash {c : Char} {rest : List Char} (h : ¬c = '-') :
    parseFloatLit (c :: rest) = parseFloatCore false (c :: rest) := by
  unfold parseFloatLit
  split
  · rename_i r heq
    rw [List.cons.injEq] at heq
    exact absurd heq.1 h
  · rfl

theorem parseFloatCore_digits (neg : Bool) {d : Char} {bodyF : List Char}
    (hd : d.isDigit = true) (hb : ∀ c ∈ bodyF, c.isDigit = true) :
    parseFloatCore neg (d :: bodyF) = some (neg, d :: bodyF, []) := by
  have hall : ∀ c ∈ d :: bodyF, c.isDigit = true := by
    intro c hc
    rcases List.mem_cons.mp hc with rfl | hc2
    · exact hd
    · exact hb c hc2
  unfold parseFloatCore
  rw [takeWhile_all hall, dropWhile_all hall]
  rw [if_neg (by simp)]

theorem parseFloatCore_digits_frac {d : Char} {bodyF : List Char}
    (hd : d.isDigit = true) (hb : ∀ c ∈ bodyF, c.isDigit = true) :
    parseFloatCore false (d :: (bodyF ++ ['.', '0'])) = some (false, d :: bodyF, ['0']) := by
  have hall : ∀ c ∈ d :: bodyF, c.isDigit = true := by
    intro c hc
    rcases List.mem_cons.mp hc with rfl | hc2
    · exact hd
    · exact hb c hc2
  unfold parseFloatCore
  rw [← List.cons_append, takeWhile_append_all hall, dropWhile_append_all hall]
  have h1 : List.takeWhile Char.isDigit ['.', '0'] = [] := by decide
  have h2 : List.dropWhile Char.isDigit ['.', '0'] = ['.', '0'] := by decide
  rw [h1, h2, List.append_nil]
  rw [if_neg (by simp)]
  show (if (List.takeWhile Char.isDigit ['0']).isEmpty
          || !(List.dropWhile Char.isDigit ['0']).isEmpty then none
        else some (false, d :: bodyF, List.takeWhile Char.isDigit ['0'])) = _
  rw [if_neg (by decide)]
  rfl

theorem pyIntFloat_digits {d : Char} {bodyF : List Char}
    (hd : d.isDigit = true) (hne : ¬d = '-') (hb : ∀ c ∈ bodyF, c.isDigit = true)
    (hval : digitsVal (d :: bodyF) ≤ 2 ^ 53) :
    pyIntFloat (d :: bodyF) = some ((digitsVal (d :: bodyF) : Int)) := by
  unfold pyIntFloat
  rw [parseFloatLit_not_dash hne, parseFloatCore_digits false hd hb]
  show some (if false = true then _ else
      ((pyFloatTruncVal (digitsVal (d :: bodyF) * 10 ^ ([] : List Char).length + digitsVal [])
        (10 ^ ([] : List Char).length) : Int))) = _
  rw [if_neg (by simp)]
  have hx : digitsVal (d :: bodyF) * 10 ^ ([] : List Char).length + digitsVal []
      = digitsVal (d :: bodyF) * 1 := by
    show digitsVal (d :: bodyF) * 10 ^ 0 + digitsVal [] = _
    norm_num
    rfl
  have hy : (10 : Nat) ^ ([] : List Char).length = 1 := by norm_num
  rw [hx, hy, pyFloatTruncVal_exact one_pos (by simpa using hval)]

theorem pyIntFloat_neg_digits {d : Char} {bodyF : List Char}
    (hd : d.isDigit = true) (hb : ∀ c ∈ bodyF, c.isDigit = true)
    (hval : digitsVal (d :: bodyF) ≤ 2 ^ 53) :
    pyIntFloat ('-' :: d :: bodyF) = some (-(digitsVal (d :: bodyF) : Int)) := by
  unfold pyIntFloat
  have hlit : parseFloatLit ('-' :: d :: bodyF) = parseFloatCore true (d :: bodyF) := rfl
  rw [hlit, parseFloatCore_digits true hd hb]
  show some (if true = true then
      -((pyFloatTruncVal (digitsVal (d :: bodyF) * 10 ^ ([] : List Char).length + digitsVal [])
        (10 ^ ([] : List Char).length) : Int))
      else _) = _
  rw [if_pos rfl]
  have hx : digitsVal (d :: bodyF) * 10 ^ ([] : List Char).length + digitsVal []
      = digitsVal (d :: bodyF) * 1 := by
    show digitsVal (d :: bodyF) * 10 ^ 0 + digitsVal [] = _
    norm_num
    rfl
  have hy : (10 : Nat) ^ ([] : List Char).length = 1 := by norm_num
  rw [hx, hy, pyFloatTruncVal_exact one_pos (by simpa using hval)]

theorem pyIntFloat_frac_digits {d : Char} {bodyF : List Char}
    (hd : d.isDigit = true) (hne : ¬d = '-') (hb : ∀ c ∈ bodyF, c.isDigit = true)
    (hval : digitsVal (d :: bodyF) ≤ 2 ^ 53) :
    pyIntFloat (d :: (bodyF ++ ['.', '0'])) = some ((digitsVal (d :: bodyF) : Int)) := by
  unfold pyIntFloat
  rw [parseFloatLit_not_dash hne, parseFloatCore_digits_frac hd hb]
  show some (if false = true then _ else
      ((pyFloatTruncVal (digitsVal (d :: bodyF) * 10 ^ (['0'] : List Char).length + digitsVal ['0'])
        (10 ^ (['0'] : List Char).length) : Int))) = _
  rw [if_neg (by simp)]
  have hx : digitsVal (d :: bodyF) * 10 ^ (['0'] : List Char).length + digitsVal ['0']
      = digitsVal (d :: bodyF) * 10 := by
    show digitsVal (d :: bodyF) * 10 ^ 1 + digitsVal ['0'] = _
    norm_num
    rfl
  have hy : (10 : Nat) ^ (['0'] : List Char).length = 10 := by norm_num
  rw [hx, hy, pyFloatTruncVal_exact (by norm_num) hval]

/-! ## Claim C2: integer round-trip -/

/-- C2 counterexample.  `int(float(clean))` rounds through binary64, so the
round-trip already fails at 2^53 + 1 = 9007199254740993: the extracted
integer is the even neighbour 9007199254740992. -/
theorem C2_roundtrip_counterexample :
    parse_number (S "<answer>9007199254740993</answer>") = some 9007199254740992
    ∧ (9007199254740992 : Int) ≠ 9007199254740993 := by
  exact ⟨by decide, by decide⟩

/-- C2 as amended: integer extraction round-trips for every integer of
magnitude at most 2^53 (the range on which binary64 conversion is exact) in
each standard representation — plain or thousands-separated digit strings
`d :: body` (digits with optional commas, value `digitsValC`), their
negations, and the decimal-suffixed form `….0`.  Beyond 2^53 the conversion
may round (see the counterexample). -/
theorem C2_integer_roundtrip_bounded :
    ∀ (d : Char) (body : List Char),
      d ∈ digitChars →
      (∀ c ∈ body, c ∈ digitChars ∨ c = ',') →
      digitsValC (d :: body) ≤ 2 ^ 53 →
      (parse_number (openTagL ++ ((d :: body) ++ closeTagL))
          = some ((digitsValC (d :: body) : Int))
      ∧ parse_number (openTagL ++ (('-' :: d :: body) ++ closeTagL))
          = some (-(digitsValC (d :: body) : Int))
      ∧ parse_number (openTagL ++ (((d :: body) ++ ['.', '0']) ++ closeTagL))
          = some ((digitsValC (d :: body) : Int))) := by
  intro d body hd hbody hval
  have hdig : d.isDigit = true := digit_isDigit d hd
  have hdnd : ¬d = '-' := digit_ne_dash d hd
  have hbodyDC : ∀ c ∈ body, digComma c = true := by
    intro c hc
    rcases hbody c hc with h | rfl
    · exact digit_digComma c h
    · decide
  have hnoLtBody : noLt body = true := List.all_eq_true.mpr (fun c hc => by
    rcases hbody c hc with h | rfl
    · simpa using digit_noLt_char c h
    · decide)
  have hnoLt1 : noLt (d :: body) = true := List.all_eq_true.mpr (fun c hc => by
    rcases List.mem_cons.mp hc with rfl | hc2
    · simpa using digit_noLt_char c hd
    · exact List.all_eq_true.mp hnoLtBody c hc2)
  have hnoLt2 : noLt ('-' :: d :: body) = true := List.all_eq_true.mpr (fun c hc => by
    rcases List.mem_cons.mp hc with rfl | hc2
    · decide
    · exact List.all_eq_true.mp hnoLt1 c hc2)
  have hnoLt3 : noLt ((d :: body) ++ ['.', '0']) = true := by
    rw [noLt_append, hnoLt1]
    decide
  have hsp : ∀ c ∈ d :: body, pySpaceChar c = false := by
    intro c hc
    rcases List.mem_cons.mp hc with rfl | hc2
    · exact digit_not_space c hd
    · rcases hbody c hc2 with h | rfl
      · exact digit_not_space c h
      · decide
  have hstrip1 : pyStrip (d :: body) = d :: body := pyStrip_of_all hsp
  have hstrip2 : pyStrip ('-' :: d :: body) = '-' :: d :: body := pyStrip_of_all (by
    intro c hc
    rcases List.mem_cons.mp hc with rfl | hc2
    · decide
    · exact hsp c hc2)
  have hstrip3 : pyStrip ((d :: body) ++ ['.', '0']) = (d :: body) ++ ['.', '0'] :=
    pyStrip_of_all (by
      intro c hc
      rcases List.mem_append.mp hc with hc2 | hc2
      · exact hsp c hc2
      · rcases List.mem_cons.mp hc2 with rfl | hc3
        · decide
        · rcases List.mem_cons.mp hc3 with rfl | hc4
          · decide
          · simp at hc4)
  -- the comma-stripped digit list and its value
  have hfe : (!(d == ',')) = true := by
    simp [digit_ne_comma d hd]
  have hfilter : (d :: body).filter (fun c => !(c == ','))
      = d :: body.filter (fun c => !(c == ',')) := by
    simp only [List.filter_cons, hfe, if_true]
  have hbf : ∀ c ∈ body.filter (fun c => !(c == ',')), c.isDigit = true := by
    intro c hc
    rw [List.mem_filter] at hc
    rcases hbody c hc.1 with h | rfl
    · exact digit_isDigit c h
    · simpa using hc.2
  have hvalEq : digitsValC (d :: body)
      = digitsVal (d :: body.filter (fun c => !(c == ','))) := by
    unfold digitsValC
    rw [hfilter]
  have hval2 : digitsVal (d :: body.filter (fun c => !(c == ','))) ≤ 2 ^ 53 := by
    rw [← hvalEq]
    exact hval
  -- representation A: plain/thousands-separated
  have hmnc : matchNumCore (d :: body) = some (d :: body, []) :=
    matchNumCore_digits hdig hbodyDC
  have hmna : matchNumAt (d :: body) = some (d :: body, []) := by
    rw [matchNumAt_not_dash hdnd, hmnc]
  have h2a : pyIntFloat ((d :: body).filter (fun c => !(c == ',')))
      = some ((digitsValC (d :: body) : Int)) := by
    rw [hfilter, pyIntFloat_digits hdig hdnd hbf hval2, hvalEq]
  have hwA : parse_number (openTagL ++ ((d :: body) ++ closeTagL))
      = some ((digitsValC (d :: body) : Int)) := by
    rw [parse_number_wrap hnoLt1, hstrip1]
    exact parseNumberInner_single (numFindAll_single hmna) h2a
  -- representation B: negated
  have hmnb : matchNumAt ('-' :: d :: body) = some ('-' :: (d :: body), []) := by
    show (if '-' = '-' then
            match matchNumCore (d :: body) with
            | some (t, r) => some ('-' :: t, r)
            | none => none
          else matchNumCore ('-' :: d :: body)) = some ('-' :: (d :: body), [])
    rw [if_pos rfl, hmnc]
  have h2b : pyIntFloat (('-' :: d :: body).filter (fun c => !(c == ',')))
      = some (-(digitsValC (d :: body) : Int)) := by
    have hfd : (!('-' == ',')) = true := by decide
    rw [show ('-' :: d :: body).filter (fun c => !(c == ','))
        = '-' :: (d :: body).filter (fun c => !(c == ',')) from by
      simp only [List.filter_cons, hfd, if_true]]
    rw [hfilter, pyIntFloat_neg_digits hdig hbf hval2, hvalEq]
  have hwB : parse_number (openTagL ++ (('-' :: d :: body) ++ closeTagL))
      = some (-(digitsValC (d :: body) : Int)) := by
    rw [parse_number_wrap hnoLt2, hstrip2]
    exact parseNumberInner_single (numFindAll_single hmnb) h2b
  -- representation C: decimal suffix
  have hmnc3 : matchNumCore (d :: (body ++ ['.', '0']))
      = some (d :: (body ++ ['.', '0']), []) := matchNumCore_digits_frac hdig hbodyDC
  have hmna3 : matchNumAt (d :: (body ++ ['.', '0'])) = some (d :: (body ++ ['.', '0']), []) := by
    rw [matchNumAt_not_dash hdnd, hmnc3]
  have hfiltC : (d :: (body ++ ['.', '0'])).filter (fun c => !(c == ','))
      = d :: (body.filter (fun c => !(c == ',')) ++ ['.', '0']) := by
    have h4 : (['.', '0'] : List Char).filter (fun c => !(c == ',')) = ['.', '0'] := by decide
    simp only [List.filter_cons, hfe, if_true, List.filter_append, h4]
  have h2c : pyIntFloat ((d :: (body ++ ['.', '0'])).filter (fun c => !(c == ',')))
      = some ((digitsValC (d :: body) : Int)) := by
    rw [hfiltC, pyIntFloat_frac_digits hdig hdnd hbf hval2, hvalEq]
  have hwC : parse_number (openTagL ++ (((d :: body) ++ ['.', '0']) ++ closeTagL))
      = some ((digitsValC (d :: body) : Int)) := by
    rw [parse_number_wrap hnoLt3, hstrip3, List.cons_append]
    exact parseNumberInner_single (numFindAll_single hmna3) h2c
  exact ⟨hwA, hwB, hwC⟩

/-- Witness for C2 at concrete inputs (1,234 in its three representations). -/
theorem C2_integer_roundtrip_witness :
    parse_number (openTagL ++ (('1' :: [',', '2', '3', '4']) ++ closeTagL))
        = some ((digitsValC ('1' :: [',', '2', '3', '4']) : Int))
    ∧ parse_number (openTagL ++ (('-' :: '1' :: [',', '2', '3', '4']) ++ closeTagL))
        = some (-(digitsValC ('1' :: [',', '2', '3', '4']) : Int))
    ∧ parse_number (openTagL ++ ((('1' :: [',', '2', '3', '4']) ++ ['.', '0']) ++ closeTagL))
        = some ((digitsValC ('1' :: [',', '2', '3', '4']) : Int)) :=
  C2_integer_roundtrip_bounded '1' [',', '2', '3', '4'] (by decide) (by decide) (by decide)

/-! ## Claim C5: boolean extraction -/

theorem parse_boolean_wrap {c : List Char} (hc : noLt c = true) :
    parse_boolean (openTagL ++ (c ++ closeTagL)) =
      (if searchKws negKws none (pyLower (pyStrip c)) then some false
       else if searchKws posKws none (pyLower (pyStrip c)) then some true
       else
         match searchNumNF (pyStrip c) with
         | some t =>
           (match pyIntFloat (t.filter (fun ch => !(ch == ','))) with
            | some v => some (decide (0 < v))
            | none => none)
         | none => none) := by
  unfold parse_boolean
  rw [extract_wrap hc]
  rw [if_neg (by simp [openTagL])]

/-- C5 counterexample.  For the span `0 5` the claimed rightmost-token
integer rule gives 5 and hence `True`, and indeed `parse_number` extracts 5;
but the boolean fallback uses `re.search`, i.e. the first token `0`, so
`parse_boolean` answers `False`. -/
theorem C5_fallback_counterexample :
    parse_boolean (S "<answer>0 5</answer>") = some false
    ∧ parse_number (S "<answer>0 5</answer>") = some 5 := by
  exact ⟨by decide, by decide⟩

/-- C5 as amended: on the isolated lower-cased span, any whole-word negation
keyword yields `False`; otherwise any whole-word affirmation keyword yields
`True` (so negation strictly precedes affirmation); otherwise the fallback
takes the FIRST numeric token of the fraction-free pattern `-?\d[\d,]*`
(leftmost `re.search`, not the rightmost token of the integer rule) and
returns `value > 0`, or `None` when no numeric token exists. -/
theorem C5_boolean_extraction :
    ∀ c : List Char, noLt c = true →
      ((searchKws negKws none (pyLower (pyStrip c)) = true →
          parse_boolean (openTagL ++ (c ++ closeTagL)) = some false)
      ∧ (searchKws negKws none (pyLower (pyStrip c)) = false →
          searchKws posKws none (pyLower (pyStrip c)) = true →
          parse_boolean (openTagL ++ (c ++ closeTagL)) = some true)
      ∧ (searchKws negKws none (pyLower (pyStrip c)) = false →
          searchKws posKws none (pyLower (pyStrip c)) = false →
          ∀ t : List Char, searchNumNF (pyStrip c) = some t →
            parse_boolean (openTagL ++ (c ++ closeTagL))
              = (match pyIntFloat (t.filter (fun ch => !(ch == ','))) with
                 | some v => some (decide (0 < v))
                 | none => none))
      ∧ (searchKws negKws none (pyLower (pyStrip c)) = false →
          searchKws posKws none (pyLower (pyStrip c)) = false →
          searchNumNF (pyStrip c) = none →
          parse_boolean (openTagL ++ (c ++ closeTagL)) = none)) := by
  intro c hc
  refine ⟨?_, ?_, ?_, ?_⟩
  · intro h1
    rw [parse_boolean_wrap hc, if_pos h1]
  · intro h1 h2
    rw [parse_boolean_wrap hc, if_neg (by simp [h1]), if_pos h2]
  · intro h1 h2 t h3
    rw [parse_boolean_wrap hc, if_neg (by simp [h1]), if_neg (by simp [h2]), h3]
  · intro h1 h2 h3
    rw [parse_boolean_wrap hc, if_neg (by simp [h1]), if_neg (by simp [h2]), h3]

/-- Witness for C5 at concrete inputs. -/
theorem C5_boolean_extraction_witness :
    parse_boolean (openTagL ++ (S "No, it does contain it" ++ closeTagL)) = some false :=
  (C5_boolean_extraction (S "No, it does contain it") (by decide)).1 (by decide)

/-! ## Claim C9: pair extraction and `None` -/

theorem parse_pair_list_wrap {c : List Char} (hc : noLt c = true) (hs : pyStrip c = c)
    (hb : literalCleanedPair c = none) :
    parse_pair_list (openTagL ++ (c ++ closeTagL))
      = (if (pairTokens c).isEmpty then none else some (pairTokens c)) := by
  unfold parse_pair_list
  rw [extract_wrap hc]
  rw [if_neg (by simp [openTagL])]
  show (match literalCleanedPair (pyStrip (pyStrip c)) with
        | some r => some r
        | none =>
          if (pairTokens (pyStrip (pyStrip c))).isEmpty then none
          else some (pairTokens (pyStrip (pyStrip c)))) = _
  rw [hs, hs, hb]

/-- C9 counterexample.  The non-empty span `and` normalises to a lone comma
and yields no fragments, so extraction returns `None` even though the
isolated span is not empty. -/
theorem C9_nonempty_none_counterexample :
    _extract_answer_tag (S "<answer>and</answer>") = some (S "and")
    ∧ S "and" ≠ []
    ∧ parse_pair_list (S "<answer>and</answer>") = none := by
  exact ⟨by decide, by decide, by decide⟩

theorem literalCleanedPair_of_not_bracket {c : List Char}
    (h : ¬(c.head? = some '[' ∧ c.getLast? = some ']')) : literalCleanedPair c = none := by
  unfold literalCleanedPair literalCleaned
  rw [if_neg h]

/-- C9 as amended: for spans that are not bracketed list literals — not both
starting with `[` and ending with `]`, so the source's guard on line 80 fails
and `ast.literal_eval` is never attempted — ordered-pair extraction returns
`None` exactly when the normalised span yields no nonempty fragments, which
happens for the empty span but also for non-empty spans consisting only of
separators, conjunctions or numbering prefixes; whenever at least one
fragment remains, the fragment list itself is returned (possibly fewer than
two fragments). -/
theorem C9_pair_extraction_none :
    ∀ c : List Char, noLt c = true → pyStrip c = c →
      ¬(c.head? = some '[' ∧ c.getLast? = some ']') →
      ((parse_pair_list (openTagL ++ (c ++ closeTagL)) = none ↔ pairTokens c = [])
      ∧ (pairTokens c ≠ [] →
          parse_pair_list (openTagL ++ (c ++ closeTagL)) = some (pairTokens c))) := by
  intro c hc hs hbr
  rw [parse_pair_list_wrap hc hs (literalCleanedPair_of_not_bracket hbr)]
  constructor
  · constructor
    · intro h
      by_cases he : (pairTokens c).isEmpty
      · exact List.isEmpty_iff.mp he
      · rw [if_neg he] at h
        exact absurd h (by simp)
    · intro h
      rw [if_pos (by simp [h])]
  · intro h
    rw [if_neg (by simp [h])]

/-- Witness for C9 at a concrete input. -/
theorem C9_pair_extraction_witness :
    parse_pair_list (openTagL ++ (S "Pikachu and Eevee" ++ closeTagL))
      = some (pairTokens (S "Pikachu and Eevee")) :=
  (C9_pair_extraction_none (S "Pikachu and Eevee") (by decide) (by decide) (by decide)).2
    (by decide)

/-! ## Claim C1: absence versus the empty set for the intersection archetype -/

theorem sampleF1v_both_empty {gtv predv : PyVal}
    (h1 : _to_set gtv = []) (h2 : _to_set predv = []) : sampleF1v gtv predv = 1 := by
  unfold sampleF1v
  rw [h1, h2]
  simp [sampleF1]

theorem parse_intersection_list_no_tag {raw : List Char}
    (h : _extract_answer_tag raw = none) : parse_intersection_list raw = [] := by
  unfold parse_intersection_list
  by_cases he : raw.isEmpty
  · rw [if_pos he]
  · rw [if_neg he, h]

/-- C1 counterexample.  A raw response with no answer tag parses to the
empty list — the very value a parsed-but-empty intersection yields — and
against an empty ground-truth set the verbose-intersection run scores a
per-sample F1 of exactly 1.0. -/
theorem C1_no_tag_f1_one_counterexample :
    _extract_answer_tag (S "I cannot find the answer") = none
    ∧ parse_intersection_list (S "I cannot find the answer") = []
    ∧ (evaluate INTERSECTION "knowledge_intensive" "Verbose-Response"
        [⟨.pstr (S "s1"), .plist []⟩]
        [⟨.pstr (S "s1"), .pnone, .pnone,
          .plist ((parse_intersection_list (S "I cannot find the answer")).map PyVal.pstr),
          .pnone⟩]).score = 1 := by
  refine ⟨by decide, by decide, ?_⟩
  unfold evaluate
  rw [if_pos ⟨rfl, rfl⟩]
  rw [show List.foldl
        (verboseStep [⟨.pstr (S "s1"), .plist []⟩])
        (0, [])
        [⟨.pstr (S "s1"), .pnone, .pnone,
          .plist ((parse_intersection_list (S "I cannot find the answer")).map PyVal.pstr),
          .pnone⟩]
      = (1, [sampleF1v (.plist []) (.plist [])]) from by decide]
  rw [sampleF1v_both_empty (by decide) (by decide)]
  norm_num

/-- C1 as amended: extraction of a raw text with no answer-delimiter span
yields the empty list for the verbose-intersection archetype — the same
value as a parsed-but-empty set, not a distinct absence marker — and against
any ground truth that normalises to the empty set the per-sample F1 of such
a prediction is exactly 1.0. -/
theorem C1_no_tag_collapses_to_empty :
    ∀ raw : List Char, _extract_answer_tag raw = none →
      ∀ gt : PyVal, _to_set gt = [] →
        parse_intersection_list raw = []
        ∧ sampleF1v gt (.plist ((parse_intersection_list raw).map PyVal.pstr)) = 1 := by
  intro raw h gt hgt
  have hp := parse_intersection_list_no_tag h
  refine ⟨hp, ?_⟩
  rw [hp]
  exact sampleF1v_both_empty hgt (by simp [_to_set])

/-- Witness for C1 at concrete inputs. -/
theorem C1_no_tag_collapses_witness :
    parse_intersection_list (S "no answer span here") = []
    ∧ sampleF1v (.plist [])
        (.plist ((parse_intersection_list (S "no answer span here")).map PyVal.pstr)) = 1 :=
  C1_no_tag_collapses_to_empty (S "no answer span here") (by decide) (.plist []) (by decide)

end AgentLong
